import Mathlib

/-!
Shallow embedding of the someip-sd-wire codec (a SOME/IP-SD wire-format
codec) and proofs about its specification.

Buffers are modelled as `List Nat`, each element one byte.  Fallible
slice accesses (Rust indexing/slicing, which panics when out of range)
are modelled in two layers:

* plain total functions using `List.getD`, mirroring the numeric
  expressions of the source exactly; and
* `Option`-instrumented variants (suffix `I`) in which every memory
  access is bounds-checked and an out-of-range access yields `none`.
  Proving such a function never returns `none` is the embedding of
  "performs no out-of-bounds access".
-/

deriving instance DecidableEq for Except

namespace SomeipSdWire

/-! ## Byte-level primitives -/

/-- Big-endian decode of 2 bytes at offset `i` (`NetworkEndian::read_u16`). -/
def readU16BE (buf : List Nat) (i : Nat) : Nat :=
  buf.getD i 0 * 256 + buf.getD (i + 1) 0

/-- Big-endian decode of 4 bytes at offset `i` (`NetworkEndian::read_u32`). -/
def readU32BE (buf : List Nat) (i : Nat) : Nat :=
  buf.getD i 0 * 16777216 + buf.getD (i + 1) 0 * 65536 +
    buf.getD (i + 2) 0 * 256 + buf.getD (i + 3) 0

/-- Replace the bytes of `buf` at `i ..= i + src.length` by `src`
(`copy_from_slice` on the subslice). -/
def writeBytes (buf : List Nat) (i : Nat) (src : List Nat) : List Nat :=
  buf.take i ++ src ++ buf.drop (i + src.length)

/-- The 2 big-endian bytes of a `u16` value (`NetworkEndian::write_u16`). -/
def be16 (v : Nat) : List Nat := [v / 256 % 256, v % 256]

/-- The 4 big-endian bytes of a `u32` value (`NetworkEndian::write_u32`). -/
def be32 (v : Nat) : List Nat :=
  [v / 16777216 % 256, v / 65536 % 256, v / 256 % 256, v % 256]

/-- Big-endian write of a `u16` at offset `i`. -/
def writeU16BE (buf : List Nat) (i : Nat) (v : Nat) : List Nat :=
  writeBytes buf i (be16 v)

/-- Big-endian write of a `u32` at offset `i`. -/
def writeU32BE (buf : List Nat) (i : Nat) (v : Nat) : List Nat :=
  writeBytes buf i (be32 v)

/-- Bounds-checked single-byte read (`buf[i]` in Rust panics out of range). -/
def byteAtI (buf : List Nat) (i : Nat) : Option Nat := buf[i]?

/-- Bounds-checked slice `buf[a..b]` (Rust slicing panics unless
`a ≤ b ≤ buf.len()`). -/
def sliceI (buf : List Nat) (a b : Nat) : Option (List Nat) :=
  if a ≤ b ∧ b ≤ buf.length then some ((buf.drop a).take (b - a)) else none

/-- Bounds-checked big-endian `u32` read at offset `i`
(models `NetworkEndian::read_u32(&buf[i..i+4])`). -/
def readU32I (buf : List Nat) (i : Nat) : Option Nat :=
  if i + 4 ≤ buf.length then some (readU32BE buf i) else none

/-! ## Error taxonomy (`src/error.rs`) -/

/-- Configuration-string codec errors (`error::ConfigError`). -/
inductive ConfigError where
  | invalidKey
  | keyStartsWithEquals
  | unexpectedEnd
  | lengthOverflow
  | bufferTooSmall
  | invalidUtf8
deriving DecidableEq, Repr

/-- Packet-level errors (`error::Error`). -/
inductive Error where
  | bufferTooShort
  | invalidEntryType (v : Nat)
  | invalidOptionType (v : Nat)
  | invalidProtocol (v : Nat)
  | lengthOverflow
  | configurationError (e : ConfigError)
deriving DecidableEq, Repr

/-! ## Packet codec (`src/packet.rs`, offsets from `src/field.rs`) -/

/-- `Packet::entries_length`: big-endian `u32` at `field::entries::LENGTH = 4..8`. -/
def entriesLength (buf : List Nat) : Nat := readU32BE buf 4

/-- `Packet::options_length`: big-endian `u32` at
`field::entries::OPTIONS_LENGTH(entries_len) = (8+e)..(8+e+4)`. -/
def optionsLength (buf : List Nat) : Nat :=
  readU32BE buf (8 + entriesLength buf)

/-- `Packet::check_len`: staged length validation.  The constants come from
`field::entries`: `MIN_HEADER_LEN = 8`, `OPTIONS_LENGTH(e).end = 8+e+4`,
`OPTIONS_ARRAY(e,o).end = 8+e+4+o`. -/
def checkLen (buf : List Nat) : Except Error Unit :=
  if buf.length < 8 then .error .bufferTooShort
  else
    let e := entriesLength buf
    if buf.length < 8 + e + 4 then .error .bufferTooShort
    else
      let o := optionsLength buf
      if buf.length < 8 + e + 4 + o then .error .bufferTooShort
      else .ok ()

/-- `Packet::new_checked`: runs `check_len` and returns the wrapped buffer. -/
def newChecked (buf : List Nat) : Except Error (List Nat) :=
  (checkLen buf).map fun _ => buf

/-- `Packet::flags`: byte at `field::header::FLAGS.start = 0`. -/
def flags (buf : List Nat) : Nat := buf.getD 0 0

/-- `Packet::reserved`: 3 bytes at `field::header::RESERVED = 1..4`,
assembled big-endian. -/
def reserved (buf : List Nat) : Nat :=
  buf.getD 1 0 * 65536 + buf.getD 2 0 * 256 + buf.getD 3 0

/-- `Packet::entries_array`: slice `field::entries::ENTRIES_ARRAY(e) = 8..8+e`. -/
def entriesArray (buf : List Nat) : List Nat :=
  (buf.drop 8).take (entriesLength buf)

/-- `Packet::options_array`: slice
`field::entries::OPTIONS_ARRAY(e,o) = (8+e+4)..(8+e+4+o)`. -/
def optionsArray (buf : List Nat) : List Nat :=
  (buf.drop (8 + entriesLength buf + 4)).take (optionsLength buf)

/-- `Packet::total_length`: `OPTIONS_ARRAY(e,o).end`. -/
def totalLength (buf : List Nat) : Nat :=
  8 + entriesLength buf + 4 + optionsLength buf

/-! Instrumented (bounds-checked) packet accessors. -/

/-- Bounds-checked `entries_length`. -/
def entriesLengthI (buf : List Nat) : Option Nat := readU32I buf 4

/-- Bounds-checked `flags`. -/
def flagsI (buf : List Nat) : Option Nat := byteAtI buf 0

/-- Bounds-checked `reserved`. -/
def reservedI (buf : List Nat) : Option Nat :=
  (sliceI buf 1 4).map fun bs =>
    bs.getD 0 0 * 65536 + bs.getD 1 0 * 256 + bs.getD 2 0

/-- Bounds-checked `options_length`. -/
def optionsLengthI (buf : List Nat) : Option Nat :=
  (entriesLengthI buf).bind fun e => readU32I buf (8 + e)

/-- Bounds-checked `entries_array`. -/
def entriesArrayI (buf : List Nat) : Option (List Nat) :=
  (entriesLengthI buf).bind fun e => sliceI buf 8 (8 + e)

/-- Bounds-checked `options_array`. -/
def optionsArrayI (buf : List Nat) : Option (List Nat) :=
  (entriesLengthI buf).bind fun e =>
    (readU32I buf (8 + e)).bind fun o =>
      sliceI buf (8 + e + 4) (8 + e + 4 + o)

/-- Bounds-checked `total_length`. -/
def totalLengthI (buf : List Nat) : Option Nat :=
  (entriesLengthI buf).bind fun e =>
    (readU32I buf (8 + e)).bind fun o => some (8 + e + 4 + o)

/-- Bounds-checked `check_len`.  `none` would mean an out-of-bounds access. -/
def checkLenI (buf : List Nat) : Option (Except Error Unit) :=
  if buf.length < 8 then some (.error .bufferTooShort)
  else
    (entriesLengthI buf).bind fun e =>
      if buf.length < 8 + e + 4 then some (.error .bufferTooShort)
      else
        (readU32I buf (8 + e)).bind fun o =>
          if buf.length < 8 + e + 4 + o then some (.error .bufferTooShort)
          else some (.ok ())

/-! ## Packet-level `Repr` (`src/repr.rs`) -/

/-- `repr::Repr`: flags, reserved, and the two raw arrays. -/
structure PacketRepr where
  flags : Nat
  reserved : Nat
  entries : List Nat
  options : List Nat
deriving DecidableEq, Repr

/-- `Repr::emit`: writes flags, reserved (3 bytes of the `u32`, high bits
dropped by the `as u8` casts), the entries length (`len() as u32`), the
entries bytes, the options length and the options bytes.  The mutable
array views re-read the stored lengths, as in the source. -/
def packetEmit (r : PacketRepr) (buf : List Nat) : List Nat :=
  let b0 := buf.set 0 r.flags
  let b1 := ((b0.set 1 (r.reserved / 65536 % 256)).set 2
      (r.reserved / 256 % 256)).set 3 (r.reserved % 256)
  let b2 := writeU32BE b1 4 r.entries.length
  let e := readU32BE b2 4
  let b3 := writeBytes b2 8 r.entries
  let b4 := writeU32BE b3 (8 + e) r.options.length
  let _o := readU32BE b4 (8 + e)
  let b5 := writeBytes b4 (8 + e + 4) r.options
  b5

/-- `Repr::parse`: `check_len` then read the four fields. -/
def packetParse (buf : List Nat) : Except Error PacketRepr :=
  match checkLen buf with
  | .error e => .error e
  | .ok _ =>
      .ok { flags := flags buf, reserved := reserved buf,
            entries := entriesArray buf, options := optionsArray buf }

/-- `Repr::buffer_len`: `OPTIONS_ARRAY(entries.len(), options.len()).end`. -/
def packetBufferLen (r : PacketRepr) : Nat :=
  8 + r.entries.length + 4 + r.options.length

/-! ## Entry codec (`src/entries.rs`) -/

/-- `entries::EntryType`. -/
inductive EntryType where
  | findService
  | offerService
  | subscribe
  | subscribeAck
deriving DecidableEq, Repr

/-- `EntryType::as_u8` (the `repr(u8)` discriminants). -/
def EntryType.toU8 : EntryType → Nat
  | .findService => 0x00
  | .offerService => 0x01
  | .subscribe => 0x06
  | .subscribeAck => 0x07

/-- `EntryType::from_u8`. -/
def EntryType.fromU8 (v : Nat) : Option EntryType :=
  if v = 0x00 then some .findService
  else if v = 0x01 then some .offerService
  else if v = 0x06 then some .subscribe
  else if v = 0x07 then some .subscribeAck
  else none

/-- `EntryType::is_service_entry`. -/
def EntryType.isServiceEntry : EntryType → Bool
  | .findService | .offerService => true
  | _ => false

/-- `EntryType::is_eventgroup_entry`. -/
def EntryType.isEventgroupEntry : EntryType → Bool
  | .subscribe | .subscribeAck => true
  | _ => false

/-- `NumberOfOptions::from_options`: pack two 4-bit counts, high nibble
first (`(opt1 & 0x0F) << 4 | (opt2 & 0x0F)`). -/
def numberOfOptionsFromOptions (options1 options2 : Nat) : Nat :=
  (options1 % 16) * 16 + options2 % 16

/-- `NumberOfOptions::options1`: high nibble (`(v >> 4) & 0x0F`). -/
def numberOfOptionsOptions1 (v : Nat) : Nat := v / 16 % 16

/-- `NumberOfOptions::options2`: low nibble (`v & 0x0F`). -/
def numberOfOptionsOptions2 (v : Nat) : Nat := v % 16

/-- `ServiceEntry::check_entry_type`: accepts service entry types,
rejects everything else with `InvalidEntryType(raw_byte)`.  The entry
type is the byte at `field::service_entry::TYPE.start = 0`. -/
def serviceCheckEntryType (buf : List Nat) : Except Error Unit :=
  let v := buf.getD 0 0
  match EntryType.fromU8 v with
  | some et => if et.isServiceEntry then .ok () else .error (.invalidEntryType v)
  | none => .error (.invalidEntryType v)

/-- `EventGroupEntry::check_entry_type`: accepts eventgroup entry types,
rejects everything else with `InvalidEntryType(raw_byte)`. -/
def eventgroupCheckEntryType (buf : List Nat) : Except Error Unit :=
  let v := buf.getD 0 0
  match EntryType.fromU8 v with
  | some et => if et.isEventgroupEntry then .ok () else .error (.invalidEntryType v)
  | none => .error (.invalidEntryType v)

/-- `entries::ServiceEntryRepr`.  `number_of_options` is the raw packed
byte of the `NumberOfOptions` wrapper. -/
structure ServiceEntryRepr where
  entryType : EntryType
  indexFirstOptionRun : Nat
  indexSecondOptionRun : Nat
  numberOfOptions : Nat
  serviceId : Nat
  instanceId : Nat
  majorVersion : Nat
  ttl : Nat
  minorVersion : Nat
deriving DecidableEq, Repr

/-- `ServiceEntryRepr::emit`, as the sequence of field setters on a
16-byte window (offsets from `field::service_entry`).  `set_ttl` stores
`(v >> 16) & 0xFF, (v >> 8) & 0xFF, v & 0xFF`. -/
def serviceEntryEmit (r : ServiceEntryRepr) (buf : List Nat) : List Nat :=
  let b0 := buf.set 0 r.entryType.toU8
  let b1 := b0.set 1 r.indexFirstOptionRun
  let b2 := b1.set 2 r.indexSecondOptionRun
  let b3 := b2.set 3 r.numberOfOptions
  let b4 := writeU16BE b3 4 r.serviceId
  let b5 := writeU16BE b4 6 r.instanceId
  let b6 := b5.set 8 r.majorVersion
  let b7 := ((b6.set 9 (r.ttl / 65536 % 256)).set 10 (r.ttl / 256 % 256)).set 11
      (r.ttl % 256)
  let b8 := writeU32BE b7 12 r.minorVersion
  b8

/-- `ServiceEntryRepr::parse`: `check_entry_type`, decode the type byte,
require a service entry type, then read all fields. -/
def serviceEntryParse (buf : List Nat) : Except Error ServiceEntryRepr :=
  match serviceCheckEntryType buf with
  | .error e => .error e
  | .ok _ =>
    match EntryType.fromU8 (buf.getD 0 0) with
    | none => .error (.invalidEntryType (buf.getD 0 0))
    | some et =>
      if ¬ et.isServiceEntry then .error (.invalidEntryType (buf.getD 0 0))
      else
        .ok { entryType := et
              indexFirstOptionRun := buf.getD 1 0
              indexSecondOptionRun := buf.getD 2 0
              numberOfOptions := buf.getD 3 0
              serviceId := readU16BE buf 4
              instanceId := readU16BE buf 6
              majorVersion := buf.getD 8 0
              ttl := buf.getD 9 0 * 65536 + buf.getD 10 0 * 256 + buf.getD 11 0
              minorVersion := readU32BE buf 12 }

/-- `entries::EventGroupEntryRepr`.  `reserved_and_counter` is the raw
packed `u16` of the `ReservedAndCounter` wrapper. -/
structure EventGroupEntryRepr where
  entryType : EntryType
  indexFirstOptionRun : Nat
  indexSecondOptionRun : Nat
  numberOfOptions : Nat
  serviceId : Nat
  instanceId : Nat
  majorVersion : Nat
  ttl : Nat
  reservedAndCounter : Nat
  eventgroupId : Nat
deriving DecidableEq, Repr

/-- `EventGroupEntryRepr::emit` (offsets from `field::event_group_entry`). -/
def eventgroupEntryEmit (r : EventGroupEntryRepr) (buf : List Nat) : List Nat :=
  let b0 := buf.set 0 r.entryType.toU8
  let b1 := b0.set 1 r.indexFirstOptionRun
  let b2 := b1.set 2 r.indexSecondOptionRun
  let b3 := b2.set 3 r.numberOfOptions
  let b4 := writeU16BE b3 4 r.serviceId
  let b5 := writeU16BE b4 6 r.instanceId
  let b6 := b5.set 8 r.majorVersion
  let b7 := ((b6.set 9 (r.ttl / 65536 % 256)).set 10 (r.ttl / 256 % 256)).set 11
      (r.ttl % 256)
  let b8 := writeU16BE b7 12 r.reservedAndCounter
  let b9 := writeU16BE b8 14 r.eventgroupId
  b9

/-- `EventGroupEntryRepr::parse`. -/
def eventgroupEntryParse (buf : List Nat) : Except Error EventGroupEntryRepr :=
  match eventgroupCheckEntryType buf with
  | .error e => .error e
  | .ok _ =>
    match EntryType.fromU8 (buf.getD 0 0) with
    | none => .error (.invalidEntryType (buf.getD 0 0))
    | some et =>
      if ¬ et.isEventgroupEntry then .error (.invalidEntryType (buf.getD 0 0))
      else
        .ok { entryType := et
              indexFirstOptionRun := buf.getD 1 0
              indexSecondOptionRun := buf.getD 2 0
              numberOfOptions := buf.getD 3 0
              serviceId := readU16BE buf 4
              instanceId := readU16BE buf 6
              majorVersion := buf.getD 8 0
              ttl := buf.getD 9 0 * 65536 + buf.getD 10 0 * 256 + buf.getD 11 0
              reservedAndCounter := readU16BE buf 12
              eventgroupId := readU16BE buf 14 }

/-! ## Option codec (`src/options.rs`) -/

/-- `options::TransportProtocol` (IANA protocol numbers). -/
inductive TransportProtocol where
  | tcp
  | udp
deriving DecidableEq, Repr

/-- `TransportProtocol::as_u8`: TCP = 0x06, UDP = 0x11. -/
def TransportProtocol.toU8 : TransportProtocol → Nat
  | .tcp => 0x06
  | .udp => 0x11

/-- `OptionHeader::length`: big-endian `u16` at
`field::option_header::LENGTH = 0..2`. -/
def optionHeaderLength (buf : List Nat) : Nat := readU16BE buf 0

/-- `options::IPv4EndpointOptionRepr`. -/
structure IPv4EndpointOptionRepr where
  ipv4Address : List Nat
  protocol : TransportProtocol
  port : Nat
deriving DecidableEq, Repr

/-- `IPv4EndpointOptionRepr::emit`: header `set_length(9)`,
`set_option_type(0x04)`, then address at 4..8, protocol at byte 9
(`4 + TRANSPORT_PROTOCOL.start`), port at 10..12 (`4 + PORT.start`). -/
def ipv4EndpointEmit (r : IPv4EndpointOptionRepr) (buf : List Nat) : List Nat :=
  let b0 := writeU16BE buf 0 9
  let b1 := b0.set 2 0x04
  let b2 := writeBytes b1 4 r.ipv4Address
  let b3 := b2.set 9 r.protocol.toU8
  let b4 := writeU16BE b3 10 r.port
  b4

/-- `options::IPv6EndpointOptionRepr`. -/
structure IPv6EndpointOptionRepr where
  ipv6Address : List Nat
  protocol : TransportProtocol
  port : Nat
deriving DecidableEq, Repr

/-- `IPv6EndpointOptionRepr::emit`: header `set_length(21)`,
`set_option_type(0x06)`, then address at 4..20, protocol at byte 21,
port at 22..24. -/
def ipv6EndpointEmit (r : IPv6EndpointOptionRepr) (buf : List Nat) : List Nat :=
  let b0 := writeU16BE buf 0 21
  let b1 := b0.set 2 0x06
  let b2 := writeBytes b1 4 r.ipv6Address
  let b3 := b2.set 21 r.protocol.toU8
  let b4 := writeU16BE b3 22 r.port
  b4

/-- `options::LoadBalancingOptionRepr`. -/
structure LoadBalancingOptionRepr where
  priority : Nat
  weight : Nat
deriving DecidableEq, Repr

/-- `LoadBalancingOptionRepr::emit`: header `set_length(5)`,
`set_option_type(0x02)`, then priority at 4..6, weight at 6..8. -/
def loadBalancingEmit (r : LoadBalancingOptionRepr) (buf : List Nat) : List Nat :=
  let b0 := writeU16BE buf 0 5
  let b1 := b0.set 2 0x02
  let b2 := writeU16BE b1 4 r.priority
  let b3 := writeU16BE b2 6 r.weight
  b3

/-! ## Configuration-string codec (`src/config.rs`)

Keys and values are byte lists (the bytes of the Rust `&str`).  Writes on
the serialize path are bounds-checked (`none` = out-of-bounds write,
which in Rust would be a panic). -/

/-- Bounds-checked single-byte store (`buf[i] = v`). -/
def setByteI (buf : List Nat) (i v : Nat) : Option (List Nat) :=
  if i < buf.length then some (buf.set i v) else none

/-- Bounds-checked `buf[i..i+src.len()].copy_from_slice(src)`. -/
def writeRangeI (buf : List Nat) (i : Nat) (src : List Nat) : Option (List Nat) :=
  if i + src.length ≤ buf.length then some (writeBytes buf i src) else none

/-- `config::ConfigEntry`: a key and an optional value, as byte strings.
`value = none` is a boolean flag, `value = some []` an empty value. -/
structure ConfigEntry where
  key : List Nat
  value : Option (List Nat)
deriving DecidableEq, Repr

/-- `ConfigEntry::wire_size`: key length, plus `1 + value length` when a
value is present (the `'='` separator). -/
def ConfigEntry.wireSize (e : ConfigEntry) : Nat :=
  match e.value with
  | none => e.key.length
  | some v => e.key.length + 1 + v.length

/-- The bytes `write_to` produces for an entry: the key, then for a
present value `'='` (0x3D) followed by the value bytes. -/
def ConfigEntry.bytes (e : ConfigEntry) : List Nat :=
  match e.value with
  | none => e.key
  | some v => e.key ++ 61 :: v

/-- The loop body of `ConfigEntry::validate_key`: every byte must be
printable US-ASCII (0x20..=0x7E) and not `'='`, and at least one byte
must be neither space nor tab. -/
def validateKeyGo : List Nat → Bool → Except ConfigError Unit
  | [], hasNonWhitespace =>
      if hasNonWhitespace then .ok () else .error .invalidKey
  | b :: rest, hasNonWhitespace =>
      if b < 0x20 ∨ 0x7E < b ∨ b = 61 then .error .invalidKey
      else validateKeyGo rest (hasNonWhitespace || (b ≠ 32 && b ≠ 9))

/-- `ConfigEntry::validate_key`. -/
def validateKey (key : List Nat) : Except ConfigError Unit :=
  if key.isEmpty then .error .invalidKey else validateKeyGo key false

/-- `ConfigEntry::from_str` (after UTF-8 decoding; byte-level): reject the
empty string and a leading `'='`, split at the first `'='` if any, and
validate the key. -/
def configFromStr (s : List Nat) : Except ConfigError ConfigEntry :=
  if s.isEmpty then .error .invalidKey
  else if s.getD 0 0 = 61 then .error .keyStartsWithEquals
  else
    match s.findIdx? (fun b => b == 61) with
    | some eqPos =>
        match validateKey (s.take eqPos) with
        | .error e => .error e
        | .ok _ => .ok { key := s.take eqPos, value := some (s.drop (eqPos + 1)) }
    | none =>
        match validateKey s with
        | .error e => .error e
        | .ok _ => .ok { key := s, value := none }

/-- `ConfigEntry::write_to`: check the subslice is large enough, copy the
key at offset 0, and for a present value store `'='` and copy the value.
Returns the byte count written and the updated subslice. -/
def ConfigEntry.writeTo (e : ConfigEntry) (buf : List Nat) :
    Option (Except ConfigError (Nat × List Nat)) :=
  let needed := e.wireSize
  if buf.length < needed then some (.error .bufferTooSmall)
  else
    (writeRangeI buf 0 e.key).bind fun b1 =>
      match e.value with
      | none => some (.ok (e.key.length, b1))
      | some v =>
        (setByteI b1 e.key.length 61).bind fun b2 =>
          (writeRangeI b2 (e.key.length + 1) v).bind fun b3 =>
            some (.ok (needed, b3))

/-- The loop of `ConfigurationOption::serialize`: for each entry check
`wire_size ≤ 255` and the remaining space, store the length byte, run
`write_to` on the tail subslice, and advance; finally store the 0x00
terminator.  Returns the total bytes written and the updated buffer. -/
def serializeGo (buf : List Nat) (pos : Nat) :
    List ConfigEntry → Option (Except ConfigError (Nat × List Nat))
  | [] =>
      if buf.length ≤ pos then some (.error .bufferTooSmall)
      else
        (setByteI buf pos 0).bind fun b => some (.ok (pos + 1, b))
  | e :: rest =>
      let size := e.wireSize
      if 255 < size then some (.error .bufferTooSmall)
      else if buf.length < pos + 1 + size then some (.error .bufferTooSmall)
      else
        (setByteI buf pos size).bind fun b1 =>
          (e.writeTo (b1.drop (pos + 1))).bind fun res =>
            match res with
            | .error err => some (.error err)
            | .ok (written, sub) =>
                serializeGo (b1.take (pos + 1) ++ sub) (pos + 1 + written) rest

/-- `ConfigurationOption::serialize`. -/
def serialize (entries : List ConfigEntry) (buf : List Nat) :
    Option (Except ConfigError (Nat × List Nat)) :=
  serializeGo buf 0 entries

/-- Total wire size of a serialized entry sequence: one length byte plus
`wire_size` per entry, plus the single terminator byte
(`ConfigurationOption::wire_size`). -/
def requiredSize : List ConfigEntry → Nat
  | [] => 1
  | e :: rest => 1 + e.wireSize + requiredSize rest

/-- The exact byte stream `serialize` produces:
`[len₁]·bytes₁ ⋯ [lenₙ]·bytesₙ·[0x00]`. -/
def encodeEntries : List ConfigEntry → List Nat
  | [] => [0]
  | e :: rest => (e.wireSize :: e.bytes) ++ encodeEntries rest

/-! UTF-8 validation, mirroring `core::str::from_utf8` acceptance. -/

/-- A UTF-8 continuation byte (`0x80..=0xBF`). -/
def isUtf8Cont (b : Nat) : Bool := 0x80 ≤ b && b ≤ 0xBF

/-- Consume one well-formed UTF-8 scalar from the front, or `none`. -/
def utf8Step (l : List Nat) : Option (List Nat) :=
  match l with
  | [] => none
  | b0 :: r =>
    if b0 ≤ 0x7F then some r
    else if 0xC2 ≤ b0 && b0 ≤ 0xDF then
      match r with
      | b1 :: r1 => if isUtf8Cont b1 then some r1 else none
      | [] => none
    else if b0 = 0xE0 then
      match r with
      | b1 :: b2 :: r2 =>
          if (0xA0 ≤ b1 && b1 ≤ 0xBF) && isUtf8Cont b2 then some r2 else none
      | _ => none
    else if (0xE1 ≤ b0 && b0 ≤ 0xEC) || b0 = 0xEE || b0 = 0xEF then
      match r with
      | b1 :: b2 :: r2 =>
          if isUtf8Cont b1 && isUtf8Cont b2 then some r2 else none
      | _ => none
    else if b0 = 0xED then
      match r with
      | b1 :: b2 :: r2 =>
          if (0x80 ≤ b1 && b1 ≤ 0x9F) && isUtf8Cont b2 then some r2 else none
      | _ => none
    else if b0 = 0xF0 then
      match r with
      | b1 :: b2 :: b3 :: r3 =>
          if (0x90 ≤ b1 && b1 ≤ 0xBF) && isUtf8Cont b2 && isUtf8Cont b3 then
            some r3 else none
      | _ => none
    else if 0xF1 ≤ b0 && b0 ≤ 0xF3 then
      match r with
      | b1 :: b2 :: b3 :: r3 =>
          if isUtf8Cont b1 && isUtf8Cont b2 && isUtf8Cont b3 then some r3
          else none
      | _ => none
    else if b0 = 0xF4 then
      match r with
      | b1 :: b2 :: b3 :: r3 =>
          if (0x80 ≤ b1 && b1 ≤ 0x8F) && isUtf8Cont b2 && isUtf8Cont b3 then
            some r3 else none
      | _ => none
    else none

/-- Fuelled UTF-8 validity loop (each step consumes at least one byte, so
`fuel = l.length` always suffices). -/
def utf8ValidGo : Nat → List Nat → Bool
  | _, [] => true
  | 0, _ :: _ => false
  | fuel + 1, l =>
      match utf8Step l with
      | some rest => utf8ValidGo fuel rest
      | none => false

/-- `core::str::from_utf8(l).is_ok()`. -/
def utf8Valid (l : List Nat) : Bool := utf8ValidGo l.length l

/-- One call of `<ConfigEntryIter as Iterator>::next` at cursor `pos`:
`none` means the zero-length terminator was consumed (iteration ends);
otherwise the parse result and the new cursor are returned. -/
def configNext (data : List Nat) (pos : Nat) :
    Option (Except ConfigError ConfigEntry × Nat) :=
  if data.length ≤ pos then some (.error .unexpectedEnd, pos)
  else
    let length := data.getD pos 0
    let pos1 := pos + 1
    if length = 0 then none
    else if data.length < pos1 + length then some (.error .lengthOverflow, pos1)
    else
      let stringBytes := (data.drop pos1).take length
      if utf8Valid stringBytes then some (configFromStr stringBytes, pos1 + length)
      else some (.error .invalidUtf8, pos1)

/-- Collect iterator items until the terminator or the first error, the
way `collect::<Result<Vec<_>, _>>` consumes `ConfigEntryIter`. -/
def configCollect (data : List Nat) : Nat → Nat → List (Except ConfigError ConfigEntry)
  | _, 0 => []
  | pos, fuel + 1 =>
      match configNext data pos with
      | none => []
      | some (.error e, _) => [.error e]
      | some (.ok entry, posNew) => .ok entry :: configCollect data posNew fuel

/-! ## Generic lemmas about the byte-level primitives -/

theorem length_writeBytes {buf src : List Nat} {i : Nat}
    (h : i + src.length ≤ buf.length) :
    (writeBytes buf i src).length = buf.length := by
  simp only [writeBytes, List.length_append, List.length_take, List.length_drop]
  omega

theorem getD_writeBytes_lt {buf src : List Nat} {i j : Nat}
    (hj : j < i) (hi : i ≤ buf.length) :
    (writeBytes buf i src).getD j 0 = buf.getD j 0 := by
  have hl : (buf.take i).length = i := List.length_take_of_le hi
  unfold writeBytes
  rw [List.append_assoc, List.getD_eq_getElem?_getD, List.getD_eq_getElem?_getD,
    List.getElem?_append_left (by rw [hl]; exact hj),
    List.getElem?_take_of_lt hj]

theorem getD_set_ne {buf : List Nat} {i j v : Nat} (h : i ≠ j) :
    (buf.set i v).getD j 0 = buf.getD j 0 := by
  simp [List.getD_eq_getElem?_getD, List.getElem?_set_ne h]

theorem getD_writeBytes_self {buf src : List Nat} {i j : Nat}
    (hj : j < src.length) (hi : i ≤ buf.length) :
    (writeBytes buf i src).getD (i + j) 0 = src.getD j 0 := by
  have hl : (buf.take i).length = i := List.length_take_of_le hi
  unfold writeBytes
  rw [List.append_assoc, List.getD_eq_getElem?_getD, List.getD_eq_getElem?_getD,
    List.getElem?_append_right (by rw [hl]; omega), hl]
  have hij : i + j - i = j := by omega
  rw [hij, List.getElem?_append_left hj]

theorem readU32_le_bound (buf : List Nat) (i : Nat)
    (h : ∀ j, buf.getD j 0 < 256) : readU32BE buf i < 4294967296 := by
  simp only [readU32BE]
  have h0 := h i
  have h1 := h (i + 1)
  have h2 := h (i + 2)
  have h3 := h (i + 3)
  omega

theorem decode_be32 {v : Nat} (h : v < 4294967296) :
    readU32BE (be32 v) 0 = v := by
  simp only [readU32BE, be32, List.getD_eq_getElem?_getD,
    List.getElem?_cons_zero, List.getElem?_cons_succ, Option.getD_some]
  omega

theorem readU32I_eq {buf : List Nat} {i : Nat} (h : i + 4 ≤ buf.length) :
    readU32I buf i = some (readU32BE buf i) := if_pos h

theorem length_writeU16BE {buf : List Nat} {i v : Nat} (h : i + 2 ≤ buf.length) :
    (writeU16BE buf i v).length = buf.length :=
  length_writeBytes (by simpa [be16] using h)

theorem getD_writeU16BE_lt {buf : List Nat} {i j v : Nat}
    (hj : j < i) (hi : i ≤ buf.length) :
    (writeU16BE buf i v).getD j 0 = buf.getD j 0 :=
  getD_writeBytes_lt hj hi

theorem getD_writeBytes_zero {buf src : List Nat} {j : Nat}
    (hj : j < src.length) :
    (writeBytes buf 0 src).getD j 0 = src.getD j 0 := by
  simpa using getD_writeBytes_self (i := 0) hj (Nat.zero_le _)

theorem sliceI_eq {buf : List Nat} {a b : Nat} (h1 : a ≤ b)
    (h2 : b ≤ buf.length) :
    sliceI buf a b = some ((buf.drop a).take (b - a)) := if_pos ⟨h1, h2⟩

theorem length_be16 (v : Nat) : (be16 v).length = 2 := rfl

theorem length_be32 (v : Nat) : (be32 v).length = 4 := rfl

theorem readU32BE_drop (buf : List Nat) (i j : Nat) :
    readU32BE buf (i + j) = readU32BE (buf.drop i) j := by
  simp only [readU32BE, List.getD_eq_getElem?_getD, List.getElem?_drop]
  have e1 : i + j + 1 = i + (j + 1) := by omega
  have e2 : i + j + 2 = i + (j + 2) := by omega
  have e3 : i + j + 3 = i + (j + 3) := by omega
  rw [e1, e2, e3]

theorem readU32BE_append (l m : List Nat) (h : 4 ≤ l.length) :
    readU32BE (l ++ m) 0 = readU32BE l 0 := by
  unfold readU32BE
  rw [List.getD_append _ _ _ _ (by omega), List.getD_append _ _ _ _ (by omega),
    List.getD_append _ _ _ _ (by omega), List.getD_append _ _ _ _ (by omega)]

theorem cons_decomp {l : List Nat} (h : 0 < l.length) :
    ∃ a t, l = a :: t :=
  List.exists_of_length_succ (n := l.length - 1) l (by omega)

theorem checkLen_ok_of_le (buf : List Nat)
    (h : 8 + entriesLength buf + 4 + optionsLength buf ≤ buf.length) :
    checkLen buf = .ok () := by
  simp only [checkLen]
  rw [if_neg (by omega), if_neg (by omega), if_neg (by omega)]

/-- `Repr::parse` on a buffer laid out as
`flags · 3 reserved bytes · be32 entries_len · entries · be32 options_len
· options` recovers each field. -/
theorem packetParse_layout (f rb0 rb1 rb2 : Nat) (en op : List Nat)
    (he : en.length < 4294967296) (ho : op.length < 4294967296) :
    packetParse (f :: rb0 :: rb1 :: rb2 ::
        (be32 en.length ++ (en ++ (be32 op.length ++ op)))) =
      .ok { flags := f, reserved := rb0 * 65536 + rb1 * 256 + rb2,
            entries := en, options := op } := by
  have hel : entriesLength (f :: rb0 :: rb1 :: rb2 ::
      (be32 en.length ++ (en ++ (be32 op.length ++ op)))) = en.length := by
    have h : entriesLength (f :: rb0 :: rb1 :: rb2 ::
        (be32 en.length ++ (en ++ (be32 op.length ++ op)))) =
        en.length / 16777216 % 256 * 16777216 + en.length / 65536 % 256 * 65536 +
          en.length / 256 % 256 * 256 + en.length % 256 := rfl
    rw [h]
    omega
  have hdrop8 : (f :: rb0 :: rb1 :: rb2 ::
      (be32 en.length ++ (en ++ (be32 op.length ++ op)))).drop 8 =
        en ++ (be32 op.length ++ op) := rfl
  have hdropel : (f :: rb0 :: rb1 :: rb2 ::
      (be32 en.length ++ (en ++ (be32 op.length ++ op)))).drop (8 + en.length) =
        be32 op.length ++ op := by
    rw [← List.drop_drop, hdrop8, List.drop_left]
  have hol : optionsLength (f :: rb0 :: rb1 :: rb2 ::
      (be32 en.length ++ (en ++ (be32 op.length ++ op)))) = op.length := by
    simp only [optionsLength, hel]
    have h2 : readU32BE (f :: rb0 :: rb1 :: rb2 ::
        (be32 en.length ++ (en ++ (be32 op.length ++ op)))) (8 + en.length) =
        readU32BE ((f :: rb0 :: rb1 :: rb2 ::
          (be32 en.length ++ (en ++ (be32 op.length ++ op)))).drop
            (8 + en.length)) 0 :=
      readU32BE_drop _ (8 + en.length) 0
    rw [h2, hdropel, readU32BE_append _ _ (by rw [length_be32]),
      decode_be32 ho]
  have hlen : (f :: rb0 :: rb1 :: rb2 ::
      (be32 en.length ++ (en ++ (be32 op.length ++ op)))).length =
        8 + en.length + 4 + op.length := by
    simp [length_be32]
    omega
  have hcheck : checkLen (f :: rb0 :: rb1 :: rb2 ::
      (be32 en.length ++ (en ++ (be32 op.length ++ op)))) = .ok () :=
    checkLen_ok_of_le _ (by rw [hel, hol, hlen])
  have hentries : entriesArray (f :: rb0 :: rb1 :: rb2 ::
      (be32 en.length ++ (en ++ (be32 op.length ++ op)))) = en := by
    rw [entriesArray, hel, hdrop8, List.take_left]
  have hoptions : optionsArray (f :: rb0 :: rb1 :: rb2 ::
      (be32 en.length ++ (en ++ (be32 op.length ++ op)))) = op := by
    rw [optionsArray, hel, hol, ← List.drop_drop, hdropel,
      List.drop_left' (length_be32 _), List.take_length]
  rw [packetParse, hcheck]
  rw [hentries, hoptions]
  rfl

/-- `Repr::emit` into a buffer of exactly `buffer_len()` bytes produces
the wire layout `flags · reserved(3) · be32 entries_len · entries ·
be32 options_len · options` (the reserved bytes are the low 24 bits of
the `u32` field, as cast by the source). -/
theorem packetEmit_layout (r : PacketRepr) (buf : List Nat)
    (hbuf : buf.length = 8 + r.entries.length + 4 + r.options.length)
    (he : r.entries.length < 4294967296) (ho : r.options.length < 4294967296) :
    packetEmit r buf =
      r.flags :: (r.reserved / 65536 % 256) :: (r.reserved / 256 % 256) ::
        (r.reserved % 256) :: (be32 r.entries.length ++
          (r.entries ++ (be32 r.options.length ++ r.options))) := by
  obtain ⟨f, res, en, op⟩ := r
  simp only at hbuf he ho ⊢
  obtain ⟨a0, buf, rfl⟩ := cons_decomp (l := buf) (by omega)
  simp only [List.length_cons] at hbuf
  obtain ⟨a1, buf, rfl⟩ := cons_decomp (l := buf) (by omega)
  simp only [List.length_cons] at hbuf
  obtain ⟨a2, buf, rfl⟩ := cons_decomp (l := buf) (by omega)
  simp only [List.length_cons] at hbuf
  obtain ⟨a3, buf, rfl⟩ := cons_decomp (l := buf) (by omega)
  simp only [List.length_cons] at hbuf
  obtain ⟨a4, buf, rfl⟩ := cons_decomp (l := buf) (by omega)
  simp only [List.length_cons] at hbuf
  obtain ⟨a5, buf, rfl⟩ := cons_decomp (l := buf) (by omega)
  simp only [List.length_cons] at hbuf
  obtain ⟨a6, buf, rfl⟩ := cons_decomp (l := buf) (by omega)
  simp only [List.length_cons] at hbuf
  obtain ⟨a7, rest, rfl⟩ := cons_decomp (l := buf) (by omega)
  simp only [List.length_cons] at hbuf
  have hrest : rest.length = en.length + 4 + op.length := by omega
  simp only [packetEmit]
  have hS : ((((a0 :: a1 :: a2 :: a3 :: a4 :: a5 :: a6 :: a7 :: rest).set 0
        f).set 1 (res / 65536 % 256)).set 2 (res / 256 % 256)).set 3
        (res % 256) =
      f :: res / 65536 % 256 :: res / 256 % 256 :: res % 256 ::
        a4 :: a5 :: a6 :: a7 :: rest := rfl
  rw [hS]
  have hB : writeU32BE (f :: res / 65536 % 256 :: res / 256 % 256 ::
        res % 256 :: a4 :: a5 :: a6 :: a7 :: rest) 4 en.length =
      f :: res / 65536 % 256 :: res / 256 % 256 :: res % 256 ::
        (be32 en.length ++ rest) := rfl
  rw [hB]
  have hC : readU32BE (f :: res / 65536 % 256 :: res / 256 % 256 ::
        res % 256 :: (be32 en.length ++ rest)) 4 = en.length := by
    have h : readU32BE (f :: res / 65536 % 256 :: res / 256 % 256 ::
        res % 256 :: (be32 en.length ++ rest)) 4 =
        en.length / 16777216 % 256 * 16777216 +
          en.length / 65536 % 256 * 65536 +
          en.length / 256 % 256 * 256 + en.length % 256 := rfl
    rw [h]
    omega
  rw [hC]
  have hD : writeBytes (f :: res / 65536 % 256 :: res / 256 % 256 ::
        res % 256 :: (be32 en.length ++ rest)) 8 en =
      f :: res / 65536 % 256 :: res / 256 % 256 :: res % 256 ::
        (be32 en.length ++ (en ++ rest.drop en.length)) := by
    show (f :: res / 65536 % 256 :: res / 256 % 256 :: res % 256 ::
        (be32 en.length ++ rest)).take 8 ++ en ++
      (f :: res / 65536 % 256 :: res / 256 % 256 :: res % 256 ::
        (be32 en.length ++ rest)).drop (8 + en.length) = _
    have hd : (f :: res / 65536 % 256 :: res / 256 % 256 :: res % 256 ::
        (be32 en.length ++ rest)).drop (8 + en.length) =
        rest.drop en.length := by
      rw [← List.drop_drop]
      rfl
    rw [hd, List.append_assoc]
    rfl
  rw [hD]
  have hE : writeU32BE (f :: res / 65536 % 256 :: res / 256 % 256 ::
        res % 256 :: (be32 en.length ++ (en ++ rest.drop en.length)))
        (8 + en.length) op.length =
      f :: res / 65536 % 256 :: res / 256 % 256 :: res % 256 ::
        (be32 en.length ++ (en ++ (be32 op.length ++
          (rest.drop en.length).drop 4))) := by
    show (f :: res / 65536 % 256 :: res / 256 % 256 :: res % 256 ::
        (be32 en.length ++ (en ++ rest.drop en.length))).take
          (8 + en.length) ++ be32 op.length ++
      (f :: res / 65536 % 256 :: res / 256 % 256 :: res % 256 ::
        (be32 en.length ++ (en ++ rest.drop en.length))).drop
          (8 + en.length + (be32 op.length).length) = _
    have ht : (f :: res / 65536 % 256 :: res / 256 % 256 :: res % 256 ::
        (be32 en.length ++ (en ++ rest.drop en.length))).take
          (8 + en.length) =
        (f :: res / 65536 % 256 :: res / 256 % 256 :: res % 256 ::
          be32 en.length) ++ en := by
      rw [List.take_add]
      have h1 : (f :: res / 65536 % 256 :: res / 256 % 256 :: res % 256 ::
          (be32 en.length ++ (en ++ rest.drop en.length))).take 8 =
          f :: res / 65536 % 256 :: res / 256 % 256 :: res % 256 ::
            be32 en.length := rfl
      have h2 : ((f :: res / 65536 % 256 :: res / 256 % 256 :: res % 256 ::
          (be32 en.length ++ (en ++ rest.drop en.length))).drop 8).take
            en.length = en := by
        have hu : (f :: res / 65536 % 256 :: res / 256 % 256 :: res % 256 ::
            (be32 en.length ++ (en ++ rest.drop en.length))).drop 8 =
            en ++ rest.drop en.length := rfl
        rw [hu, List.take_left]
      rw [h1, h2]
    have hd : (f :: res / 65536 % 256 :: res / 256 % 256 :: res % 256 ::
        (be32 en.length ++ (en ++ rest.drop en.length))).drop
          (8 + en.length + (be32 op.length).length) =
        (rest.drop en.length).drop 4 := by
      rw [length_be32, ← List.drop_drop, ← List.drop_drop]
      have h3 : (f :: res / 65536 % 256 :: res / 256 % 256 :: res % 256 ::
          (be32 en.length ++ (en ++ rest.drop en.length))).drop 8 =
          en ++ rest.drop en.length := rfl
      rw [h3, List.drop_left]
    rw [ht, hd, List.append_assoc, List.append_assoc]
    rfl
  rw [hE]
  show (f :: res / 65536 % 256 :: res / 256 % 256 :: res % 256 ::
      (be32 en.length ++ (en ++ (be32 op.length ++
        (rest.drop en.length).drop 4)))).take (8 + en.length + 4) ++ op ++
    (f :: res / 65536 % 256 :: res / 256 % 256 :: res % 256 ::
      (be32 en.length ++ (en ++ (be32 op.length ++
        (rest.drop en.length).drop 4)))).drop
          (8 + en.length + 4 + op.length) = _
  have hdrop8e : (f :: res / 65536 % 256 :: res / 256 % 256 :: res % 256 ::
      (be32 en.length ++ (en ++ (be32 op.length ++
        (rest.drop en.length).drop 4)))).drop (8 + en.length) =
      be32 op.length ++ (rest.drop en.length).drop 4 := by
    rw [← List.drop_drop]
    have h4 : (f :: res / 65536 % 256 :: res / 256 % 256 :: res % 256 ::
        (be32 en.length ++ (en ++ (be32 op.length ++
          (rest.drop en.length).drop 4)))).drop 8 =
        en ++ (be32 op.length ++ (rest.drop en.length).drop 4) := rfl
    rw [h4, List.drop_left]
  have ht2 : (f :: res / 65536 % 256 :: res / 256 % 256 :: res % 256 ::
      (be32 en.length ++ (en ++ (be32 op.length ++
        (rest.drop en.length).drop 4)))).take (8 + en.length + 4) =
      ((f :: res / 65536 % 256 :: res / 256 % 256 :: res % 256 ::
        be32 en.length) ++ en) ++ be32 op.length := by
    rw [List.take_add, List.take_add]
    have h1 : (f :: res / 65536 % 256 :: res / 256 % 256 :: res % 256 ::
        (be32 en.length ++ (en ++ (be32 op.length ++
          (rest.drop en.length).drop 4)))).take 8 =
        f :: res / 65536 % 256 :: res / 256 % 256 :: res % 256 ::
          be32 en.length := rfl
    have h2 : ((f :: res / 65536 % 256 :: res / 256 % 256 :: res % 256 ::
        (be32 en.length ++ (en ++ (be32 op.length ++
          (rest.drop en.length).drop 4)))).drop 8).take en.length = en := by
      have hu : (f :: res / 65536 % 256 :: res / 256 % 256 :: res % 256 ::
          (be32 en.length ++ (en ++ (be32 op.length ++
            (rest.drop en.length).drop 4)))).drop 8 =
          en ++ (be32 op.length ++ (rest.drop en.length).drop 4) := rfl
      rw [hu, List.take_left]
    have h3 : ((f :: res / 65536 % 256 :: res / 256 % 256 :: res % 256 ::
        (be32 en.length ++ (en ++ (be32 op.length ++
          (rest.drop en.length).drop 4)))).drop (8 + en.length)).take 4 =
        be32 op.length := by
      rw [hdrop8e, List.take_left' (length_be32 _)]
    rw [h1, h2, h3, List.append_assoc]
  have hd2 : (f :: res / 65536 % 256 :: res / 256 % 256 :: res % 256 ::
      (be32 en.length ++ (en ++ (be32 op.length ++
        (rest.drop en.length).drop 4)))).drop
          (8 + en.length + 4 + op.length) = [] := by
    rw [← List.drop_drop, ← List.drop_drop, hdrop8e,
      List.drop_left' (length_be32 _)]
    rw [List.drop_drop]
    apply List.drop_eq_nil_of_le
    simp
    omega
  rw [ht2, hd2, List.append_nil, List.append_assoc, List.append_assoc]
  rfl

set_option maxHeartbeats 4000000 in
/-- Emit-then-parse round-trip for `ServiceEntryRepr` on a 16-byte
buffer, for field values within their wire widths and a service entry
type. -/
theorem serviceEntry_roundtrip (r : ServiceEntryRepr) (buf : List Nat)
    (hbuf : buf.length = 16) (hsvc : r.entryType.isServiceEntry = true)
    (hsid : r.serviceId < 65536) (hiid : r.instanceId < 65536)
    (httl : r.ttl < 16777216) (hmin : r.minorVersion < 4294967296) :
    serviceEntryParse (serviceEntryEmit r buf) = .ok r := by
  obtain ⟨et, i1, i2, no, sid, iid, mj, t, mn⟩ := r
  simp only at hsvc hsid hiid httl hmin
  obtain ⟨a0, buf, rfl⟩ := cons_decomp (l := buf) (by omega)
  simp only [List.length_cons] at hbuf
  obtain ⟨a1, buf, rfl⟩ := cons_decomp (l := buf) (by omega)
  simp only [List.length_cons] at hbuf
  obtain ⟨a2, buf, rfl⟩ := cons_decomp (l := buf) (by omega)
  simp only [List.length_cons] at hbuf
  obtain ⟨a3, buf, rfl⟩ := cons_decomp (l := buf) (by omega)
  simp only [List.length_cons] at hbuf
  obtain ⟨a4, buf, rfl⟩ := cons_decomp (l := buf) (by omega)
  simp only [List.length_cons] at hbuf
  obtain ⟨a5, buf, rfl⟩ := cons_decomp (l := buf) (by omega)
  simp only [List.length_cons] at hbuf
  obtain ⟨a6, buf, rfl⟩ := cons_decomp (l := buf) (by omega)
  simp only [List.length_cons] at hbuf
  obtain ⟨a7, buf, rfl⟩ := cons_decomp (l := buf) (by omega)
  simp only [List.length_cons] at hbuf
  obtain ⟨a8, buf, rfl⟩ := cons_decomp (l := buf) (by omega)
  simp only [List.length_cons] at hbuf
  obtain ⟨a9, buf, rfl⟩ := cons_decomp (l := buf) (by omega)
  simp only [List.length_cons] at hbuf
  obtain ⟨a10, buf, rfl⟩ := cons_decomp (l := buf) (by omega)
  simp only [List.length_cons] at hbuf
  obtain ⟨a11, buf, rfl⟩ := cons_decomp (l := buf) (by omega)
  simp only [List.length_cons] at hbuf
  obtain ⟨a12, buf, rfl⟩ := cons_decomp (l := buf) (by omega)
  simp only [List.length_cons] at hbuf
  obtain ⟨a13, buf, rfl⟩ := cons_decomp (l := buf) (by omega)
  simp only [List.length_cons] at hbuf
  obtain ⟨a14, buf, rfl⟩ := cons_decomp (l := buf) (by omega)
  simp only [List.length_cons] at hbuf
  obtain ⟨a15, buf, rfl⟩ := cons_decomp (l := buf) (by omega)
  simp only [List.length_cons] at hbuf
  have hnil : buf = [] := List.length_eq_zero.mp (by omega)
  subst hnil
  cases et with
  | findService =>
    have hemit : serviceEntryEmit
        (ServiceEntryRepr.mk .findService i1 i2 no sid iid mj t mn)
        [a0, a1, a2, a3, a4, a5, a6, a7, a8, a9, a10, a11, a12, a13, a14, a15] =
        [0, i1, i2, no, sid / 256 % 256, sid % 256, iid / 256 % 256,
         iid % 256, mj, t / 65536 % 256, t / 256 % 256, t % 256,
         mn / 16777216 % 256, mn / 65536 % 256, mn / 256 % 256, mn % 256] := rfl
    have hparse : serviceEntryParse
        [0, i1, i2, no, sid / 256 % 256, sid % 256, iid / 256 % 256,
         iid % 256, mj, t / 65536 % 256, t / 256 % 256, t % 256,
         mn / 16777216 % 256, mn / 65536 % 256, mn / 256 % 256, mn % 256] =
        .ok (ServiceEntryRepr.mk .findService i1 i2 no
          (sid / 256 % 256 * 256 + sid % 256)
          (iid / 256 % 256 * 256 + iid % 256) mj
          (t / 65536 % 256 * 65536 + t / 256 % 256 * 256 + t % 256)
          (mn / 16777216 % 256 * 16777216 + mn / 65536 % 256 * 65536 +
            mn / 256 % 256 * 256 + mn % 256)) := rfl
    rw [hemit, hparse]
    simp only [Except.ok.injEq, ServiceEntryRepr.mk.injEq]
    exact ⟨trivial, trivial, trivial, trivial, by omega, by omega, trivial, by omega, by omega⟩
  | offerService =>
    have hemit : serviceEntryEmit
        (ServiceEntryRepr.mk .offerService i1 i2 no sid iid mj t mn)
        [a0, a1, a2, a3, a4, a5, a6, a7, a8, a9, a10, a11, a12, a13, a14, a15] =
        [1, i1, i2, no, sid / 256 % 256, sid % 256, iid / 256 % 256,
         iid % 256, mj, t / 65536 % 256, t / 256 % 256, t % 256,
         mn / 16777216 % 256, mn / 65536 % 256, mn / 256 % 256, mn % 256] := rfl
    have hparse : serviceEntryParse
        [1, i1, i2, no, sid / 256 % 256, sid % 256, iid / 256 % 256,
         iid % 256, mj, t / 65536 % 256, t / 256 % 256, t % 256,
         mn / 16777216 % 256, mn / 65536 % 256, mn / 256 % 256, mn % 256] =
        .ok (ServiceEntryRepr.mk .offerService i1 i2 no
          (sid / 256 % 256 * 256 + sid % 256)
          (iid / 256 % 256 * 256 + iid % 256) mj
          (t / 65536 % 256 * 65536 + t / 256 % 256 * 256 + t % 256)
          (mn / 16777216 % 256 * 16777216 + mn / 65536 % 256 * 65536 +
            mn / 256 % 256 * 256 + mn % 256)) := rfl
    rw [hemit, hparse]
    simp only [Except.ok.injEq, ServiceEntryRepr.mk.injEq]
    exact ⟨trivial, trivial, trivial, trivial, by omega, by omega, trivial, by omega, by omega⟩
  | subscribe => exact absurd hsvc (by decide)
  | subscribeAck => exact absurd hsvc (by decide)

set_option maxHeartbeats 4000000 in
/-- Emit-then-parse round-trip for `EventGroupEntryRepr` on a 16-byte
buffer, for field values within their wire widths and an eventgroup
entry type. -/
theorem eventgroupEntry_roundtrip (r : EventGroupEntryRepr) (buf : List Nat)
    (hbuf : buf.length = 16) (hevg : r.entryType.isEventgroupEntry = true)
    (hsid : r.serviceId < 65536) (hiid : r.instanceId < 65536)
    (httl : r.ttl < 16777216) (hrc : r.reservedAndCounter < 65536)
    (heg : r.eventgroupId < 65536) :
    eventgroupEntryParse (eventgroupEntryEmit r buf) = .ok r := by
  obtain ⟨et, i1, i2, no, sid, iid, mj, t, rc, eg⟩ := r
  simp only at hevg hsid hiid httl hrc heg
  obtain ⟨a0, buf, rfl⟩ := cons_decomp (l := buf) (by omega)
  simp only [List.length_cons] at hbuf
  obtain ⟨a1, buf, rfl⟩ := cons_decomp (l := buf) (by omega)
  simp only [List.length_cons] at hbuf
  obtain ⟨a2, buf, rfl⟩ := cons_decomp (l := buf) (by omega)
  simp only [List.length_cons] at hbuf
  obtain ⟨a3, buf, rfl⟩ := cons_decomp (l := buf) (by omega)
  simp only [List.length_cons] at hbuf
  obtain ⟨a4, buf, rfl⟩ := cons_decomp (l := buf) (by omega)
  simp only [List.length_cons] at hbuf
  obtain ⟨a5, buf, rfl⟩ := cons_decomp (l := buf) (by omega)
  simp only [List.length_cons] at hbuf
  obtain ⟨a6, buf, rfl⟩ := cons_decomp (l := buf) (by omega)
  simp only [List.length_cons] at hbuf
  obtain ⟨a7, buf, rfl⟩ := cons_decomp (l := buf) (by omega)
  simp only [List.length_cons] at hbuf
  obtain ⟨a8, buf, rfl⟩ := cons_decomp (l := buf) (by omega)
  simp only [List.length_cons] at hbuf
  obtain ⟨a9, buf, rfl⟩ := cons_decomp (l := buf) (by omega)
  simp only [List.length_cons] at hbuf
  obtain ⟨a10, buf, rfl⟩ := cons_decomp (l := buf) (by omega)
  simp only [List.length_cons] at hbuf
  obtain ⟨a11, buf, rfl⟩ := cons_decomp (l := buf) (by omega)
  simp only [List.length_cons] at hbuf
  obtain ⟨a12, buf, rfl⟩ := cons_decomp (l := buf) (by omega)
  simp only [List.length_cons] at hbuf
  obtain ⟨a13, buf, rfl⟩ := cons_decomp (l := buf) (by omega)
  simp only [List.length_cons] at hbuf
  obtain ⟨a14, buf, rfl⟩ := cons_decomp (l := buf) (by omega)
  simp only [List.length_cons] at hbuf
  obtain ⟨a15, buf, rfl⟩ := cons_decomp (l := buf) (by omega)
  simp only [List.length_cons] at hbuf
  have hnil : buf = [] := List.length_eq_zero.mp (by omega)
  subst hnil
  cases et with
  | subscribe =>
    have hemit : eventgroupEntryEmit
        (EventGroupEntryRepr.mk .subscribe i1 i2 no sid iid mj t rc eg)
        [a0, a1, a2, a3, a4, a5, a6, a7, a8, a9, a10, a11, a12, a13, a14, a15] =
        [6, i1, i2, no, sid / 256 % 256, sid % 256, iid / 256 % 256,
         iid % 256, mj, t / 65536 % 256, t / 256 % 256, t % 256,
         rc / 256 % 256, rc % 256, eg / 256 % 256, eg % 256] := rfl
    have hparse : eventgroupEntryParse
        [6, i1, i2, no, sid / 256 % 256, sid % 256, iid / 256 % 256,
         iid % 256, mj, t / 65536 % 256, t / 256 % 256, t % 256,
         rc / 256 % 256, rc % 256, eg / 256 % 256, eg % 256] =
        .ok (EventGroupEntryRepr.mk .subscribe i1 i2 no
          (sid / 256 % 256 * 256 + sid % 256)
          (iid / 256 % 256 * 256 + iid % 256) mj
          (t / 65536 % 256 * 65536 + t / 256 % 256 * 256 + t % 256)
          (rc / 256 % 256 * 256 + rc % 256)
          (eg / 256 % 256 * 256 + eg % 256)) := rfl
    rw [hemit, hparse]
    simp only [Except.ok.injEq, EventGroupEntryRepr.mk.injEq]
    exact ⟨trivial, trivial, trivial, trivial, by omega, by omega, trivial,
      by omega, by omega, by omega⟩
  | subscribeAck =>
    have hemit : eventgroupEntryEmit
        (EventGroupEntryRepr.mk .subscribeAck i1 i2 no sid iid mj t rc eg)
        [a0, a1, a2, a3, a4, a5, a6, a7, a8, a9, a10, a11, a12, a13, a14, a15] =
        [7, i1, i2, no, sid / 256 % 256, sid % 256, iid / 256 % 256,
         iid % 256, mj, t / 65536 % 256, t / 256 % 256, t % 256,
         rc / 256 % 256, rc % 256, eg / 256 % 256, eg % 256] := rfl
    have hparse : eventgroupEntryParse
        [7, i1, i2, no, sid / 256 % 256, sid % 256, iid / 256 % 256,
         iid % 256, mj, t / 65536 % 256, t / 256 % 256, t % 256,
         rc / 256 % 256, rc % 256, eg / 256 % 256, eg % 256] =
        .ok (EventGroupEntryRepr.mk .subscribeAck i1 i2 no
          (sid / 256 % 256 * 256 + sid % 256)
          (iid / 256 % 256 * 256 + iid % 256) mj
          (t / 65536 % 256 * 65536 + t / 256 % 256 * 256 + t % 256)
          (rc / 256 % 256 * 256 + rc % 256)
          (eg / 256 % 256 * 256 + eg % 256)) := rfl
    rw [hemit, hparse]
    simp only [Except.ok.injEq, EventGroupEntryRepr.mk.injEq]
    exact ⟨trivial, trivial, trivial, trivial, by omega, by omega, trivial,
      by omega, by omega, by omega⟩
  | findService => exact absurd hevg (by decide)
  | offerService => exact absurd hevg (by decide)

/-! Lemmas about the configuration-string codec. -/

theorem writeRangeI_eq {buf src : List Nat} {i : Nat}
    (h : i + src.length ≤ buf.length) :
    writeRangeI buf i src = some (writeBytes buf i src) := if_pos h

theorem setByteI_eq {buf : List Nat} {i v : Nat} (h : i < buf.length) :
    setByteI buf i v = some (buf.set i v) := if_pos h

theorem writeTo_ok (e : ConfigEntry) (sub : List Nat)
    (h : e.wireSize ≤ sub.length) :
    e.writeTo sub = some (.ok (e.wireSize, e.bytes ++ sub.drop e.wireSize)) := by
  obtain ⟨key, val⟩ := e
  cases val with
  | none =>
    simp only [ConfigEntry.writeTo, ConfigEntry.wireSize, ConfigEntry.bytes] at h ⊢
    rw [if_neg (by omega), writeRangeI_eq (by omega)]
    simp [writeBytes]
  | some v =>
    simp only [ConfigEntry.writeTo, ConfigEntry.wireSize, ConfigEntry.bytes] at h ⊢
    rw [if_neg (by omega), writeRangeI_eq (by omega)]
    simp only [Option.some_bind, writeBytes, List.take_zero, List.nil_append,
      Nat.zero_add]
    have hlen1 : (key ++ sub.drop key.length).length = sub.length := by
      simp
      omega
    rw [setByteI_eq (by omega)]
    simp only [Option.some_bind]
    rw [List.set_append_right _ _ (Nat.le_refl _), Nat.sub_self]
    obtain ⟨c, rest, hcr⟩ := cons_decomp (l := sub.drop key.length)
      (by simp; omega)
    have hrest : rest = sub.drop (key.length + 1) := by
      have hx : (sub.drop key.length).drop 1 = rest := by rw [hcr]; rfl
      rw [← hx, List.drop_drop]
    rw [hcr, List.set_cons_zero]
    have hlen2 : (key ++ 61 :: rest).length = sub.length := by
      have hy : (61 :: rest).length = (c :: rest).length := rfl
      simp only [List.length_append, hy, ← hcr]
      simp
      omega
    rw [writeRangeI_eq (by omega)]
    simp only [Option.some_bind, writeBytes]
    have ht : (key ++ 61 :: rest).take (key.length + 1) = key ++ [61] := by
      rw [List.take_append_eq_append_take, List.take_of_length_le (by omega)]
      have h1 : key.length + 1 - key.length = 1 := by omega
      rw [h1]
      rfl
    have hd : (key ++ 61 :: rest).drop (key.length + 1 + v.length) =
        sub.drop (key.length + 1 + v.length) := by
      have hsplit : key ++ 61 :: rest = (key ++ [61]) ++ rest := by simp
      have hidx : key.length + 1 + v.length =
          (key ++ [61]).length + v.length := by simp
      rw [hsplit, hidx, List.drop_append, hrest, List.drop_drop]
      congr 1
    rw [ht, hd]
    simp [List.append_assoc]

theorem validateKeyGo_mem {l : List Nat} {flag : Bool}
    (h : validateKeyGo l flag = .ok ()) :
    ∀ b ∈ l, 0x20 ≤ b ∧ b ≤ 0x7E ∧ b ≠ 61 := by
  induction l generalizing flag with
  | nil => intro b hb; exact absurd hb (List.not_mem_nil b)
  | cons a l ih =>
    intro b hb
    rw [List.mem_cons] at hb
    simp only [validateKeyGo] at h
    by_cases ha : a < 0x20 ∨ 0x7E < a ∨ a = 61
    · rw [if_pos ha] at h
      exact Except.noConfusion h
    · rw [if_neg ha] at h
      push_neg at ha
      rcases hb with rfl | hb
      · exact ⟨by omega, by omega, ha.2.2⟩
      · exact ih h b hb

theorem validateKey_mem {key : List Nat} (h : validateKey key = .ok ()) :
    key ≠ [] ∧ ∀ b ∈ key, 0x20 ≤ b ∧ b ≤ 0x7E ∧ b ≠ 61 := by
  rw [validateKey] at h
  by_cases hk : key.isEmpty
  · rw [if_pos hk] at h
    exact Except.noConfusion h
  · rw [if_neg hk] at h
    exact ⟨fun hnil => hk (by simp [hnil]), validateKeyGo_mem h⟩

theorem utf8Valid_cons_ascii {b : Nat} (hb : b ≤ 0x7F) (l : List Nat) :
    utf8Valid (b :: l) = utf8Valid l := by
  have hgo : utf8ValidGo (l.length + 1) (b :: l) = utf8ValidGo l.length l := by
    have hstep : utf8Step (b :: l) = some l := by
      simp [utf8Step, hb]
    simp only [utf8ValidGo]
    rw [hstep]
  exact hgo

theorem utf8Valid_ascii_append {pre : List Nat}
    (hpre : ∀ b ∈ pre, b ≤ 0x7F) (l : List Nat) :
    utf8Valid (pre ++ l) = utf8Valid l := by
  induction pre with
  | nil => rfl
  | cons a pre ih =>
    rw [List.cons_append, utf8Valid_cons_ascii (hpre a (List.mem_cons_self a pre)),
      ih fun b hb => hpre b (List.mem_cons_of_mem a hb)]

theorem utf8Valid_bytes {e : ConfigEntry}
    (hkey : validateKey e.key = .ok ())
    (hval : ∀ v, e.value = some v → utf8Valid v = true) :
    utf8Valid e.bytes = true := by
  obtain ⟨key, val⟩ := e
  have hmem := (validateKey_mem hkey).2
  cases val with
  | none =>
    show utf8Valid key = true
    have h2 : utf8Valid (key ++ []) = utf8Valid [] :=
      utf8Valid_ascii_append (fun b hb => by have := hmem b hb; omega) []
    rw [List.append_nil] at h2
    rw [h2]
    rfl
  | some v =>
    show utf8Valid (key ++ 61 :: v) = true
    rw [utf8Valid_ascii_append (fun b hb => by have := hmem b hb; omega),
      utf8Valid_cons_ascii (by omega)]
    exact hval v rfl

theorem configFromStr_bytes (e : ConfigEntry)
    (hkey : validateKey e.key = .ok ()) :
    configFromStr e.bytes = .ok e := by
  obtain ⟨key, val⟩ := e
  obtain ⟨hne, hmem⟩ := validateKey_mem hkey
  obtain ⟨k0, krest, hk⟩ := cons_decomp (l := key)
    (by cases key with | nil => exact absurd rfl hne | cons a l => simp)
  have hk0 : k0 ∈ key := by rw [hk]; simp
  cases val with
  | none =>
    simp only [ConfigEntry.bytes, configFromStr]
    rw [if_neg (by rw [hk]; simp), if_neg (by
      rw [hk]
      show ¬ k0 = 61
      exact (hmem k0 hk0).2.2)]
    have hfind : key.findIdx? (fun b => b == 61) = none := by
      rw [List.findIdx?_eq_none_iff]
      intro x hx
      simp [(hmem x hx).2.2]
    rw [hfind, hkey]
  | some v =>
    simp only [ConfigEntry.bytes, configFromStr]
    rw [if_neg (by rw [hk]; simp), if_neg (by
      rw [hk]
      show ¬ k0 = 61
      exact (hmem k0 hk0).2.2)]
    have hfind : (key ++ 61 :: v).findIdx? (fun b => b == 61) =
        some key.length := by
      rw [List.findIdx?_append]
      have h1 : key.findIdx? (fun b => b == 61) = none := by
        rw [List.findIdx?_eq_none_iff]
        intro x hx
        simp [(hmem x hx).2.2]
      have h2 : (61 :: v).findIdx? (fun b => b == 61) = some 0 := by
        simp [List.findIdx?_cons]
      rw [h1, h2]
      simp
    have htake : (key ++ 61 :: v).take key.length = key := List.take_left _ _
    have hdrop : (key ++ 61 :: v).drop (key.length + 1) = v := by
      rw [← List.drop_drop, List.drop_left]
      rfl
    simp only [hfind]
    rw [htake]
    simp only [hkey]
    rw [hdrop]

theorem bytes_length (e : ConfigEntry) : e.bytes.length = e.wireSize := by
  obtain ⟨key, val⟩ := e
  cases val <;> simp [ConfigEntry.bytes, ConfigEntry.wireSize] <;> omega

theorem wireSize_pos (e : ConfigEntry) (h : e.key ≠ []) : 1 ≤ e.wireSize := by
  obtain ⟨key, val⟩ := e
  have : 0 < key.length := List.length_pos.mpr h
  cases val <;> simp [ConfigEntry.wireSize] <;> omega

theorem requiredSize_pos (entries : List ConfigEntry) :
    1 ≤ requiredSize entries := by
  cases entries <;> simp [requiredSize] <;> omega

theorem requiredSize_ge (entries : List ConfigEntry) :
    entries.length + 1 ≤ requiredSize entries := by
  induction entries with
  | nil => simp [requiredSize]
  | cons e rest ih => simp only [requiredSize, List.length_cons]; omega

theorem encodeEntries_length (entries : List ConfigEntry) :
    (encodeEntries entries).length = requiredSize entries := by
  induction entries with
  | nil => rfl
  | cons e rest ih =>
    simp only [encodeEntries, requiredSize, List.length_append,
      List.length_cons, bytes_length, ih]
    omega

theorem set_split {buf : List Nat} {pos v : Nat} (h : pos < buf.length) :
    buf.set pos v = buf.take pos ++ v :: buf.drop (pos + 1) := by
  rw [List.set_eq_take_append_cons_drop, if_pos h]

theorem serializeGo_newbuf_length (e : ConfigEntry) (buf : List Nat) (pos : Nat)
    (hsp : pos + 1 + e.wireSize ≤ buf.length) :
    ((buf.take pos ++ [e.wireSize]) ++
      (e.bytes ++ buf.drop (pos + 1 + e.wireSize))).length = buf.length := by
  simp only [List.length_append, List.length_take, List.length_cons,
    List.length_nil, List.length_drop, bytes_length]
  omega

/-- One iteration of the serialize loop, once its guards have passed:
store the length byte, write the entry bytes, and continue at the
advanced cursor. -/
theorem serializeGo_cons_step (e : ConfigEntry) (rest : List ConfigEntry)
    (buf : List Nat) (pos : Nat) (h255 : ¬ 255 < e.wireSize)
    (hsp : ¬ buf.length < pos + 1 + e.wireSize) :
    serializeGo buf pos (e :: rest) =
      serializeGo ((buf.take pos ++ [e.wireSize]) ++
        (e.bytes ++ buf.drop (pos + 1 + e.wireSize))) (pos + 1 + e.wireSize)
        rest := by
  simp only [serializeGo]
  rw [if_neg h255, if_neg hsp, setByteI_eq (by omega)]
  simp only [Option.some_bind]
  rw [set_split (by omega)]
  have hsub : (buf.take pos ++ e.wireSize :: buf.drop (pos + 1)).drop
      (pos + 1) = buf.drop (pos + 1) := by
    rw [List.drop_append_eq_append_drop,
      List.drop_eq_nil_of_le (by simp only [List.length_take]; omega),
      List.nil_append]
    have h1 : pos + 1 - (buf.take pos).length = 1 := by
      simp only [List.length_take]
      omega
    rw [h1]
    rfl
  rw [hsub, writeTo_ok e _ (by simp only [List.length_drop]; omega)]
  simp only [Option.some_bind]
  have htake1 : (buf.take pos ++ e.wireSize :: buf.drop (pos + 1)).take
      (pos + 1) = buf.take pos ++ [e.wireSize] := by
    rw [List.take_append_eq_append_take,
      List.take_of_length_le (by simp only [List.length_take]; omega)]
    have h1 : pos + 1 - (buf.take pos).length = 1 := by
      simp only [List.length_take]
      omega
    rw [h1]
    rfl
  rw [htake1, List.drop_drop]

/-- When every entry fits in a length byte and the buffer has room for
the full encoding, the serialize loop succeeds, returns the exact byte
count, and the final buffer is the untouched prefix, the encoding, and
the untouched tail. -/
theorem serializeGo_ok (entries : List ConfigEntry) :
    ∀ (buf : List Nat) (pos : Nat), (∀ e ∈ entries, e.wireSize ≤ 255) →
    pos + requiredSize entries ≤ buf.length →
    serializeGo buf pos entries = some (.ok (pos + requiredSize entries,
      buf.take pos ++ encodeEntries entries ++
        buf.drop (pos + requiredSize entries))) := by
  induction entries with
  | nil =>
    intro buf pos _ hle
    simp only [requiredSize] at hle ⊢
    simp only [serializeGo]
    have hnle : ¬ buf.length ≤ pos := by omega
    rw [if_neg hnle, setByteI_eq (by omega)]
    simp only [Option.some_bind]
    rw [set_split (by omega), List.append_assoc]
    rfl
  | cons e rest ih =>
    intro buf pos hsz hle
    have hsze : e.wireSize ≤ 255 := hsz e (List.mem_cons_self e rest)
    have hrp : 1 ≤ requiredSize rest := requiredSize_pos rest
    simp only [requiredSize] at hle ⊢
    rw [serializeGo_cons_step e rest buf pos (by omega) (by omega)]
    have hser := ih ((buf.take pos ++ [e.wireSize]) ++
        (e.bytes ++ buf.drop (pos + 1 + e.wireSize))) (pos + 1 + e.wireSize)
      (fun x hx => hsz x (List.mem_cons_of_mem e hx))
      (by rw [serializeGo_newbuf_length e buf pos (by omega)]; omega)
    rw [hser]
    have ht2 : ((buf.take pos ++ [e.wireSize]) ++
        (e.bytes ++ buf.drop (pos + 1 + e.wireSize))).take
          (pos + 1 + e.wireSize) = (buf.take pos ++ [e.wireSize]) ++ e.bytes := by
      rw [List.take_append_eq_append_take,
        List.take_of_length_le (by simp only [List.length_append,
          List.length_take, List.length_cons, List.length_nil]; omega)]
      have h1 : pos + 1 + e.wireSize -
          (buf.take pos ++ [e.wireSize]).length = e.wireSize := by
        simp only [List.length_append, List.length_take, List.length_cons,
          List.length_nil]
        omega
      rw [h1, List.take_left' (bytes_length e)]
    have hd2 : ((buf.take pos ++ [e.wireSize]) ++
        (e.bytes ++ buf.drop (pos + 1 + e.wireSize))).drop
          (pos + 1 + e.wireSize + requiredSize rest) =
        buf.drop (pos + (1 + e.wireSize + requiredSize rest)) := by
      rw [List.drop_append_eq_append_drop,
        List.drop_eq_nil_of_le (by simp only [List.length_append,
          List.length_take, List.length_cons, List.length_nil]; omega),
        List.nil_append]
      have h1 : pos + 1 + e.wireSize + requiredSize rest -
          (buf.take pos ++ [e.wireSize]).length =
          e.wireSize + requiredSize rest := by
        simp only [List.length_append, List.length_take, List.length_cons,
          List.length_nil]
        omega
      rw [h1, List.drop_append_eq_append_drop,
        List.drop_eq_nil_of_le (by rw [bytes_length]; omega),
        List.nil_append]
      have h2 : e.wireSize + requiredSize rest - e.bytes.length =
          requiredSize rest := by
        rw [bytes_length]
        omega
      rw [h2, List.drop_drop]
      congr 1
      omega
    rw [ht2, hd2]
    have hidx : pos + 1 + e.wireSize + requiredSize rest =
        pos + (1 + e.wireSize + requiredSize rest) := by omega
    rw [hidx]
    simp only [encodeEntries, List.append_assoc, List.cons_append,
      List.singleton_append, List.nil_append]

/-- The serialize loop never accesses out of bounds (it always returns
`some`), and it reports `BufferTooSmall` exactly when some entry
overflows the length byte or the buffer lacks room for the encoding. -/
theorem serializeGo_spec (entries : List ConfigEntry) :
    ∀ (buf : List Nat) (pos : Nat),
    (serializeGo buf pos entries).isSome = true ∧
    (serializeGo buf pos entries = some (.error .bufferTooSmall) ↔
      (∃ e ∈ entries, 255 < e.wireSize) ∨
        buf.length < pos + requiredSize entries) := by
  induction entries with
  | nil =>
    intro buf pos
    by_cases h : buf.length ≤ pos
    · refine ⟨?_, ?_⟩
      · simp only [serializeGo]
        rw [if_pos h]
        rfl
      · simp only [serializeGo, requiredSize]
        rw [if_pos h]
        constructor
        · intro _
          right
          omega
        · intro _
          rfl
    · refine ⟨?_, ?_⟩
      · simp only [serializeGo]
        rw [if_neg h, setByteI_eq (by omega)]
        rfl
      · simp only [serializeGo, requiredSize]
        rw [if_neg h, setByteI_eq (by omega)]
        simp only [Option.some_bind]
        constructor
        · intro hcontra
          simp at hcontra
        · intro hcontra
          rcases hcontra with ⟨x, hx, _⟩ | hlt
          · exact absurd hx (List.not_mem_nil x)
          · omega
  | cons e rest ih =>
    intro buf pos
    by_cases h255 : 255 < e.wireSize
    · refine ⟨?_, ?_⟩
      · simp only [serializeGo]
        rw [if_pos h255]
        rfl
      · simp only [serializeGo]
        rw [if_pos h255]
        constructor
        · intro _
          exact Or.inl ⟨e, List.mem_cons_self e rest, h255⟩
        · intro _
          rfl
    · by_cases hsp : buf.length < pos + 1 + e.wireSize
      · have hrp : 1 ≤ requiredSize rest := requiredSize_pos rest
        refine ⟨?_, ?_⟩
        · simp only [serializeGo]
          rw [if_neg h255, if_pos hsp]
          rfl
        · simp only [serializeGo, requiredSize]
          rw [if_neg h255, if_pos hsp]
          constructor
          · intro _
            right
            omega
          · intro _
            rfl
      · rw [serializeGo_cons_step e rest buf pos h255 hsp]
        have hlen : ((buf.take pos ++ [e.wireSize]) ++
            (e.bytes ++ buf.drop (pos + 1 + e.wireSize))).length =
            buf.length :=
          serializeGo_newbuf_length e buf pos (by omega)
        obtain ⟨hsome, hiff⟩ := ih ((buf.take pos ++ [e.wireSize]) ++
          (e.bytes ++ buf.drop (pos + 1 + e.wireSize))) (pos + 1 + e.wireSize)
        refine ⟨hsome, ?_⟩
        rw [hiff, hlen]
        simp only [requiredSize]
        constructor
        · intro hc
          rcases hc with ⟨x, hx, hxx⟩ | hlt
          · exact Or.inl ⟨x, List.mem_cons_of_mem e hx, hxx⟩
          · right
            omega
        · intro hc
          rcases hc with ⟨x, hx, hxx⟩ | hlt
          · rw [List.mem_cons] at hx
            rcases hx with rfl | hx
            · omega
            · exact Or.inl ⟨x, hx, hxx⟩
          · right
            omega

/-- Reading back an encoded entry stream: starting at a cursor whose tail
is exactly `encodeEntries entries` (all entries valid), the iterator
yields precisely the original entries, each wrapped in `Ok`. -/
theorem configCollect_encode (entries : List ConfigEntry) :
    ∀ (data : List Nat) (pos fuel : Nat),
    data.drop pos = encodeEntries entries →
    (∀ e ∈ entries, validateKey e.key = .ok () ∧
      (∀ v, e.value = some v → utf8Valid v = true)) →
    entries.length < fuel →
    configCollect data pos fuel = entries.map Except.ok := by
  induction entries with
  | nil =>
    intro data pos fuel hdrop _ hfuel
    obtain ⟨f, rfl⟩ : ∃ f, fuel = f + 1 := ⟨fuel - 1, by omega⟩
    have hlen : (data.drop pos).length = 1 := by rw [hdrop]; rfl
    rw [List.length_drop] at hlen
    have hget : data.getD pos 0 = 0 := by
      have h0 : data[pos]? = (data.drop pos)[0]? :=
        (List.getElem?_drop data pos 0).symm
      rw [List.getD_eq_getElem?_getD, h0, hdrop]
      rfl
    have hnle : ¬ data.length ≤ pos := by omega
    have hnext : configNext data pos = none := by
      simp only [configNext]
      rw [if_neg hnle, hget]
      rfl
    simp [configCollect, hnext]
  | cons e rest ih =>
    intro data pos fuel hdrop hval hfuel
    obtain ⟨f, rfl⟩ : ∃ f, fuel = f + 1 := ⟨fuel - 1, by omega⟩
    obtain ⟨hkey, hutf⟩ := hval e (List.mem_cons_self e rest)
    have hkne : e.key ≠ [] := (validateKey_mem hkey).1
    have hw1 : 1 ≤ e.wireSize := wireSize_pos e hkne
    have hlenc : (encodeEntries (e :: rest)).length =
        1 + e.wireSize + (encodeEntries rest).length := by
      simp only [encodeEntries, List.length_append, List.length_cons,
        bytes_length]
      omega
    have hlen : (data.drop pos).length = (encodeEntries (e :: rest)).length :=
      by rw [hdrop]
    rw [List.length_drop, hlenc] at hlen
    have hrest1 : 1 ≤ (encodeEntries rest).length := by
      rw [encodeEntries_length]
      exact requiredSize_pos rest
    have hget : data.getD pos 0 = e.wireSize := by
      have h0 : data[pos]? = (data.drop pos)[0]? :=
        (List.getElem?_drop data pos 0).symm
      rw [List.getD_eq_getElem?_getD, h0, hdrop]
      simp [encodeEntries]
    have hdrop1 : data.drop (pos + 1) = e.bytes ++ encodeEntries rest := by
      rw [← List.drop_drop, hdrop]
      simp [encodeEntries]
    have hstr : (data.drop (pos + 1)).take (data.getD pos 0) = e.bytes := by
      rw [hget, hdrop1, List.take_left' (bytes_length e)]
    have hnle : ¬ data.length ≤ pos := by omega
    have hne0 : ¬ data.getD pos 0 = 0 := by rw [hget]; omega
    have hnoover : ¬ data.length < pos + 1 + data.getD pos 0 := by
      rw [hget]
      omega
    have hnext : configNext data pos = some (.ok e, pos + 1 + e.wireSize) := by
      simp only [configNext]
      rw [if_neg hnle, if_neg hne0, if_neg hnoover, hstr,
        if_pos (utf8Valid_bytes hkey hutf), configFromStr_bytes e hkey, hget]
    have hdrop2 : data.drop (pos + 1 + e.wireSize) = encodeEntries rest := by
      rw [← List.drop_drop, hdrop1, List.drop_left' (bytes_length e)]
    have hfuel2 : rest.length < f := by
      rw [List.length_cons] at hfuel
      omega
    simp only [configCollect, hnext, List.map_cons]
    rw [ih data (pos + 1 + e.wireSize) f hdrop2
      (fun x hx => hval x (List.mem_cons_of_mem e hx)) hfuel2]

/-! ## Claim theorems -/

/-- C9: for every buffer `B` with `len(B) < 8`, `Packet::new_checked(B)`
fails with `Err(BufferTooShort)`. -/
theorem claim_C9_short_buffer_fails (buf : List Nat) (h : buf.length < 8) :
    newChecked buf = .error .bufferTooShort := by
  simp [newChecked, checkLen, h, Except.map]

theorem claim_C9_short_buffer_fails_witness :
    newChecked [1, 2, 3] = .error .bufferTooShort :=
  claim_C9_short_buffer_fails [1, 2, 3] (by decide)

/-- C10: packet construction validates lengths only.  For every buffer
whose length is at least `8 + entries_len + 4 + options_len` — with no
constraint whatsoever on the flags byte, the 24-bit reserved field, or
the bytes inside the two arrays — `Packet::new_checked` succeeds. -/
theorem claim_C10_length_only_validation (buf : List Nat)
    (h : 8 + entriesLength buf + 4 + optionsLength buf ≤ buf.length) :
    newChecked buf = .ok buf := by
  rw [newChecked, checkLen_ok_of_le buf h]
  rfl

theorem claim_C10_length_only_validation_witness :
    newChecked [0xAB, 1, 2, 3, 0, 0, 0, 1, 0x55, 0, 0, 0, 0] =
      .ok [0xAB, 1, 2, 3, 0, 0, 0, 1, 0x55, 0, 0, 0, 0] :=
  claim_C10_length_only_validation _ (by decide)

/-- C6: entry-type validation is total over all byte values:
`ServiceEntry::check_entry_type` accepts exactly 0x00 and 0x01,
`EventGroupEntry::check_entry_type` accepts exactly 0x06 and 0x07, and
every other byte value `v` is rejected with `InvalidEntryType(v)`, where
`v` is the raw byte at offset 0 of the buffer. -/
theorem claim_C6_entry_type_total (v : Nat) (rest : List Nat) (hv : v < 256) :
    ((serviceCheckEntryType (v :: rest) = .ok ()) ↔ (v = 0x00 ∨ v = 0x01)) ∧
    (¬(v = 0x00 ∨ v = 0x01) →
      serviceCheckEntryType (v :: rest) = .error (.invalidEntryType v)) ∧
    ((eventgroupCheckEntryType (v :: rest) = .ok ()) ↔ (v = 0x06 ∨ v = 0x07)) ∧
    (¬(v = 0x06 ∨ v = 0x07) →
      eventgroupCheckEntryType (v :: rest) = .error (.invalidEntryType v)) := by
  have hv0 : (v :: rest).getD 0 0 = v := rfl
  simp only [serviceCheckEntryType, eventgroupCheckEntryType, EntryType.fromU8, hv0]
  by_cases h0 : v = 0 <;> by_cases h1 : v = 1 <;> by_cases h6 : v = 6 <;>
    by_cases h7 : v = 7 <;>
    simp_all [EntryType.isServiceEntry, EntryType.isEventgroupEntry]

theorem claim_C6_entry_type_total_witness :
    ((serviceCheckEntryType [0x42] = .ok ()) ↔ (0x42 = 0x00 ∨ 0x42 = 0x01)) ∧
    (¬((0x42 : Nat) = 0x00 ∨ (0x42 : Nat) = 0x01) →
      serviceCheckEntryType [0x42] = .error (.invalidEntryType 0x42)) ∧
    ((eventgroupCheckEntryType [0x42] = .ok ()) ↔ ((0x42 : Nat) = 0x06 ∨ (0x42 : Nat) = 0x07)) ∧
    (¬((0x42 : Nat) = 0x06 ∨ (0x42 : Nat) = 0x07) →
      eventgroupCheckEntryType [0x42] = .error (.invalidEntryType 0x42)) :=
  claim_C6_entry_type_total 0x42 [] (by decide)

/-- C8: whenever the configuration iterator's cursor has reached the end
of the input without a zero-length terminator having been consumed, the
next call yields `Err(UnexpectedEnd)` (this covers the empty input); and
on the concrete entries array `[0x03, 'k', 'e', 'y']` the first call
yields the flag entry `"key"` and the second call `Err(UnexpectedEnd)`. -/
theorem claim_C8_unexpected_end :
    (∀ (data : List Nat) (pos : Nat), data.length ≤ pos →
      configNext data pos = some (.error .unexpectedEnd, pos)) ∧
    configNext [0x03, 107, 101, 121] 0 =
      some (.ok { key := [107, 101, 121], value := none }, 4) ∧
    configNext [0x03, 107, 101, 121] 4 = some (.error .unexpectedEnd, 4) := by
  refine ⟨fun data pos h => ?_, by decide, by decide⟩
  simp [configNext, h]

theorem claim_C8_unexpected_end_witness :
    configNext [] 0 = some (.error .unexpectedEnd, 0) :=
  claim_C8_unexpected_end.1 [] 0 (by decide)

/-- C1: for every buffer `B` whose length is exactly
`8 + entries_len + 4 + options_len` (with `entries_len` the big-endian
`u32` at bytes 4..8 and `options_len` the big-endian `u32` at bytes
`8+entries_len..8+entries_len+4`), `Packet::new_checked(B)` succeeds and
`entries_array()`/`options_array()` are exactly the in-bounds slices
`8..8+entries_len` and `8+entries_len+4..8+entries_len+4+options_len`
of `B` (in particular both slices have the full declared length). -/
theorem claim_C1_exact_length_parse (buf : List Nat)
    (h : buf.length = 8 + entriesLength buf + 4 + optionsLength buf) :
    newChecked buf = .ok buf ∧
    entriesArrayI buf = some (entriesArray buf) ∧
    (entriesArray buf).length = entriesLength buf ∧
    optionsArrayI buf = some (optionsArray buf) ∧
    (optionsArray buf).length = optionsLength buf := by
  have h' : buf.length =
      8 + readU32BE buf 4 + 4 + readU32BE buf (8 + readU32BE buf 4) := h
  refine ⟨?_, ?_, ?_, ?_, ?_⟩
  · rw [newChecked, checkLen_ok_of_le buf (by omega)]
    rfl
  · simp only [entriesArrayI, entriesLengthI]
    rw [readU32I_eq (by omega)]
    simp only [Option.some_bind]
    rw [sliceI_eq (by omega) (by omega)]
    have harith : 8 + readU32BE buf 4 - 8 = readU32BE buf 4 := by omega
    rw [harith]
    rfl
  · simp only [entriesArray, List.length_take, List.length_drop]
    omega
  · simp only [optionsArrayI, entriesLengthI]
    rw [readU32I_eq (by omega)]
    simp only [Option.some_bind]
    rw [readU32I_eq (by omega)]
    simp only [Option.some_bind]
    rw [sliceI_eq (by omega) (by omega)]
    have harith : 8 + readU32BE buf 4 + 4 + readU32BE buf (8 + readU32BE buf 4) -
        (8 + readU32BE buf 4 + 4) = readU32BE buf (8 + readU32BE buf 4) := by omega
    rw [harith]
    rfl
  · simp only [optionsArray, List.length_take, List.length_drop]
    omega

theorem claim_C1_exact_length_parse_witness :
    newChecked [0x80, 0, 0, 0, 0, 0, 0, 2, 0xAA, 0xBB, 0, 0, 0, 1, 0xCC] =
      .ok [0x80, 0, 0, 0, 0, 0, 0, 2, 0xAA, 0xBB, 0, 0, 0, 1, 0xCC] ∧
    entriesArrayI [0x80, 0, 0, 0, 0, 0, 0, 2, 0xAA, 0xBB, 0, 0, 0, 1, 0xCC] =
      some (entriesArray [0x80, 0, 0, 0, 0, 0, 0, 2, 0xAA, 0xBB, 0, 0, 0, 1, 0xCC]) ∧
    (entriesArray [0x80, 0, 0, 0, 0, 0, 0, 2, 0xAA, 0xBB, 0, 0, 0, 1, 0xCC]).length =
      entriesLength [0x80, 0, 0, 0, 0, 0, 0, 2, 0xAA, 0xBB, 0, 0, 0, 1, 0xCC] ∧
    optionsArrayI [0x80, 0, 0, 0, 0, 0, 0, 2, 0xAA, 0xBB, 0, 0, 0, 1, 0xCC] =
      some (optionsArray [0x80, 0, 0, 0, 0, 0, 0, 2, 0xAA, 0xBB, 0, 0, 0, 1, 0xCC]) ∧
    (optionsArray [0x80, 0, 0, 0, 0, 0, 0, 2, 0xAA, 0xBB, 0, 0, 0, 1, 0xCC]).length =
      optionsLength [0x80, 0, 0, 0, 0, 0, 0, 2, 0xAA, 0xBB, 0, 0, 0, 1, 0xCC] :=
  claim_C1_exact_length_parse _ (by decide)

/-- C3: `Packet::check_len` performs no out-of-bounds access on any
buffer (the instrumented run never hits the `none` marker and agrees
with the plain function), its result is always `Ok` or
`Err(BufferTooShort)`, and once `check_len` returned `Ok` the accessors
`flags`, `reserved`, `entries_array`, `options_array` and `total_length`
only perform in-bounds accesses (their instrumented runs all succeed). -/
theorem claim_C3_no_out_of_bounds (buf : List Nat) :
    checkLenI buf = some (checkLen buf) ∧
    (checkLen buf = .ok () ∨ checkLen buf = .error .bufferTooShort) ∧
    (checkLen buf = .ok () →
      (flagsI buf).isSome ∧ (reservedI buf).isSome ∧
      (entriesArrayI buf).isSome ∧ (optionsArrayI buf).isSome ∧
      (totalLengthI buf).isSome) := by
  refine ⟨?_, ?_, ?_⟩
  · by_cases h8 : buf.length < 8
    · simp [checkLenI, checkLen, h8]
    · simp only [checkLenI, checkLen, entriesLength, optionsLength,
        entriesLengthI, if_neg h8]
      rw [readU32I_eq (by omega)]
      simp only [Option.some_bind]
      by_cases he : buf.length < 8 + readU32BE buf 4 + 4
      · rw [if_pos he, if_pos he]
      · rw [if_neg he, if_neg he, readU32I_eq (by omega)]
        simp only [Option.some_bind]
        rw [apply_ite some]
  · simp only [checkLen]
    split
    · exact Or.inr rfl
    · split
      · exact Or.inr rfl
      · split
        · exact Or.inr rfl
        · exact Or.inl rfl
  · intro hok
    have hlen : ¬ buf.length < 8 ∧
        ¬ buf.length < 8 + entriesLength buf + 4 ∧
        ¬ buf.length < 8 + entriesLength buf + 4 + optionsLength buf := by
      by_contra hc
      simp only [checkLen] at hok
      rcases Nat.lt_or_ge buf.length 8 with h | h
      · rw [if_pos h] at hok
        exact Except.noConfusion hok
      · rw [if_neg (by omega)] at hok
        by_cases h2 : buf.length < 8 + entriesLength buf + 4
        · rw [if_pos h2] at hok
          exact Except.noConfusion hok
        · rw [if_neg h2] at hok
          by_cases h3 : buf.length < 8 + entriesLength buf + 4 + optionsLength buf
          · rw [if_pos h3] at hok
            exact Except.noConfusion hok
          · exact hc ⟨by omega, h2, h3⟩
    obtain ⟨h8, he, ho⟩ := hlen
    have he' : ¬ buf.length < 8 + readU32BE buf 4 + 4 := he
    have ho' : ¬ buf.length <
        8 + readU32BE buf 4 + 4 + readU32BE buf (8 + readU32BE buf 4) := ho
    refine ⟨?_, ?_, ?_, ?_, ?_⟩
    · simp only [flagsI, byteAtI]
      rw [List.getElem?_eq_getElem (by omega)]
      rfl
    · simp only [reservedI]
      rw [sliceI_eq (by omega) (by omega)]
      rfl
    · simp only [entriesArrayI, entriesLengthI]
      rw [readU32I_eq (by omega)]
      simp only [Option.some_bind]
      rw [sliceI_eq (by omega) (by omega)]
      rfl
    · simp only [optionsArrayI, entriesLengthI]
      rw [readU32I_eq (by omega)]
      simp only [Option.some_bind]
      rw [readU32I_eq (by omega)]
      simp only [Option.some_bind]
      rw [sliceI_eq (by omega) (by omega)]
      rfl
    · simp only [totalLengthI, entriesLengthI]
      rw [readU32I_eq (by omega)]
      simp only [Option.some_bind]
      rw [readU32I_eq (by omega)]
      rfl

theorem claim_C3_no_out_of_bounds_witness :
    (flagsI (List.replicate 12 0)).isSome :=
  ((claim_C3_no_out_of_bounds (List.replicate 12 0)).2.2 (by decide)).1

/-- C4 counterexample: the claim says the emitted header length field of
an IPv4 endpoint option equals 8, but at this concrete repr and a
zeroed 12-byte buffer the code writes 9. -/
theorem claim_C4_counterexample :
    ¬ optionHeaderLength
        (ipv4EndpointEmit { ipv4Address := [192, 168, 1, 1],
                            protocol := .udp, port := 30490 }
          (List.replicate 12 0)) = 8 := by
  decide

/-- C4 (amended): for each of the three fixed-size option reprs emitted
into a buffer of exactly `buffer_len()` bytes, the header length field
the code writes is the payload size **plus one** — it also covers the
trailing discardable-flag/reserved byte of the 4-byte header: 9 for
IPv4 endpoint (8-byte payload), 21 for IPv6 endpoint (20-byte payload),
and 5 for load balancing (4-byte payload). -/
theorem claim_C4_corrected_header_length
    (r4 : IPv4EndpointOptionRepr) (buf4 : List Nat)
    (h4a : r4.ipv4Address.length = 4) (h4 : buf4.length = 12)
    (r6 : IPv6EndpointOptionRepr) (buf6 : List Nat)
    (h6a : r6.ipv6Address.length = 16) (h6 : buf6.length = 24)
    (rl : LoadBalancingOptionRepr) (bufl : List Nat) (hl : bufl.length = 8) :
    optionHeaderLength (ipv4EndpointEmit r4 buf4) = 9 ∧
    optionHeaderLength (ipv6EndpointEmit r6 buf6) = 21 ∧
    optionHeaderLength (loadBalancingEmit rl bufl) = 5 := by
  refine ⟨?_, ?_, ?_⟩
  · simp only [ipv4EndpointEmit]
    have l0 : (writeU16BE buf4 0 9).length = 12 := by
      rw [length_writeU16BE (by omega)]; exact h4
    have l1 : ((writeU16BE buf4 0 9).set 2 0x04).length = 12 := by
      rw [List.length_set]; exact l0
    have l2 : (writeBytes ((writeU16BE buf4 0 9).set 2 0x04) 4
        r4.ipv4Address).length = 12 := by
      rw [length_writeBytes (by omega)]; exact l1
    have l3 : ((writeBytes ((writeU16BE buf4 0 9).set 2 0x04) 4
        r4.ipv4Address).set 9 r4.protocol.toU8).length = 12 := by
      rw [List.length_set]; exact l2
    simp only [optionHeaderLength, readU16BE]
    rw [getD_writeU16BE_lt (by omega) (by omega),
        getD_writeU16BE_lt (by omega) (by omega),
        getD_set_ne (by omega), getD_set_ne (by omega),
        getD_writeBytes_lt (by omega) (by omega),
        getD_writeBytes_lt (by omega) (by omega),
        getD_set_ne (by omega), getD_set_ne (by omega)]
    simp only [writeU16BE]
    rw [getD_writeBytes_zero (by simp [be16]), getD_writeBytes_zero (by simp [be16])]
    decide
  · simp only [ipv6EndpointEmit]
    have l0 : (writeU16BE buf6 0 21).length = 24 := by
      rw [length_writeU16BE (by omega)]; exact h6
    have l1 : ((writeU16BE buf6 0 21).set 2 0x06).length = 24 := by
      rw [List.length_set]; exact l0
    have l2 : (writeBytes ((writeU16BE buf6 0 21).set 2 0x06) 4
        r6.ipv6Address).length = 24 := by
      rw [length_writeBytes (by omega)]; exact l1
    have l3 : ((writeBytes ((writeU16BE buf6 0 21).set 2 0x06) 4
        r6.ipv6Address).set 21 r6.protocol.toU8).length = 24 := by
      rw [List.length_set]; exact l2
    simp only [optionHeaderLength, readU16BE]
    rw [getD_writeU16BE_lt (by omega) (by omega),
        getD_writeU16BE_lt (by omega) (by omega),
        getD_set_ne (by omega), getD_set_ne (by omega),
        getD_writeBytes_lt (by omega) (by omega),
        getD_writeBytes_lt (by omega) (by omega),
        getD_set_ne (by omega), getD_set_ne (by omega)]
    simp only [writeU16BE]
    rw [getD_writeBytes_zero (by simp [be16]), getD_writeBytes_zero (by simp [be16])]
    decide
  · simp only [loadBalancingEmit]
    have l0 : (writeU16BE bufl 0 5).length = 8 := by
      rw [length_writeU16BE (by omega)]; exact hl
    have l1 : ((writeU16BE bufl 0 5).set 2 0x02).length = 8 := by
      rw [List.length_set]; exact l0
    have l2 : (writeU16BE ((writeU16BE bufl 0 5).set 2 0x02) 4
        rl.priority).length = 8 := by
      rw [length_writeU16BE (by omega)]; exact l1
    simp only [optionHeaderLength, readU16BE]
    rw [getD_writeU16BE_lt (by omega) (by omega),
        getD_writeU16BE_lt (by omega) (by omega),
        getD_writeU16BE_lt (by omega) (by omega),
        getD_writeU16BE_lt (by omega) (by omega),
        getD_set_ne (by omega), getD_set_ne (by omega)]
    simp only [writeU16BE]
    rw [getD_writeBytes_zero (by simp [be16]), getD_writeBytes_zero (by simp [be16])]
    decide

theorem claim_C4_corrected_header_length_witness :
    optionHeaderLength
      (ipv4EndpointEmit { ipv4Address := [192, 168, 1, 1],
                          protocol := .udp, port := 30490 }
        (List.replicate 12 0)) = 9 ∧
    optionHeaderLength
      (ipv6EndpointEmit { ipv6Address := List.replicate 16 1,
                          protocol := .tcp, port := 30490 }
        (List.replicate 24 0)) = 21 ∧
    optionHeaderLength
      (loadBalancingEmit { priority := 100, weight := 50 }
        (List.replicate 8 0)) = 5 :=
  claim_C4_corrected_header_length _ _ (by decide) (by decide) _ _ (by decide)
    (by decide) _ _ (by decide)

/-- C2 counterexample: the emit-then-parse round-trip does not hold for
every Repr value.  The `ttl` field of `ServiceEntryRepr` is a `u32` but
only its low 24 bits are emitted, so the repr with `ttl = 0x1000000`
(and otherwise minimal fields), emitted into a buffer of exactly
`buffer_len()` = 16 bytes, parses back with `ttl = 0`, not equal to the
original in every field. -/
theorem claim_C2_counterexample :
    ¬ serviceEntryParse (serviceEntryEmit
        { entryType := .offerService, indexFirstOptionRun := 0,
          indexSecondOptionRun := 0, numberOfOptions := 0, serviceId := 0,
          instanceId := 0, majorVersion := 0, ttl := 16777216,
          minorVersion := 0 } (List.replicate 16 0)) = .ok
        { entryType := .offerService, indexFirstOptionRun := 0,
          indexSecondOptionRun := 0, numberOfOptions := 0, serviceId := 0,
          instanceId := 0, majorVersion := 0, ttl := 16777216,
          minorVersion := 0 } := by
  decide

/-- C2 (amended): the emit-then-parse round-trip holds for every Repr
whose fields fit their wire widths and whose entry type matches the
entry kind.  Packet `Repr`: `reserved` below 2^24 and array lengths
below 2^32 (reserved is emitted as 3 bytes and the lengths as `u32`),
buffer sized exactly `buffer_len()`.  `ServiceEntryRepr` /
`EventGroupEntryRepr`: a 16-byte buffer, an entry type in the variant's
discriminant set, and `service_id`/`instance_id`/`eventgroup_id`/
`reserved_and_counter` below 2^16, `ttl` below 2^24 (it is emitted as 3
bytes), `minor_version` below 2^32.  Then parsing the emitted buffer
yields a representation equal to the original in every field. -/
theorem claim_C2_corrected_roundtrip :
    (∀ (r : PacketRepr) (buf : List Nat),
      r.reserved < 16777216 → r.entries.length < 4294967296 →
      r.options.length < 4294967296 → buf.length = packetBufferLen r →
      packetParse (packetEmit r buf) = .ok r) ∧
    (∀ (r : ServiceEntryRepr) (buf : List Nat),
      buf.length = 16 → r.entryType.isServiceEntry = true →
      r.serviceId < 65536 → r.instanceId < 65536 → r.ttl < 16777216 →
      r.minorVersion < 4294967296 →
      serviceEntryParse (serviceEntryEmit r buf) = .ok r) ∧
    (∀ (r : EventGroupEntryRepr) (buf : List Nat),
      buf.length = 16 → r.entryType.isEventgroupEntry = true →
      r.serviceId < 65536 → r.instanceId < 65536 → r.ttl < 16777216 →
      r.reservedAndCounter < 65536 → r.eventgroupId < 65536 →
      eventgroupEntryParse (eventgroupEntryEmit r buf) = .ok r) := by
  refine ⟨?_, serviceEntry_roundtrip, eventgroupEntry_roundtrip⟩
  intro r buf hres he ho hlen
  rw [packetEmit_layout r buf hlen he ho, packetParse_layout _ _ _ _ _ _ he ho]
  obtain ⟨f, res, en, op⟩ := r
  simp only at hres
  simp only [Except.ok.injEq, PacketRepr.mk.injEq]
  exact ⟨trivial, by omega, trivial, trivial⟩

theorem claim_C2_corrected_roundtrip_witness :
    packetParse (packetEmit
        { flags := 0xC0, reserved := 0, entries := [1, 2, 3, 4],
          options := [9, 10] }
        (List.replicate 18 0)) =
      .ok { flags := 0xC0, reserved := 0, entries := [1, 2, 3, 4],
            options := [9, 10] } :=
  claim_C2_corrected_roundtrip.1 _ (List.replicate 18 0) (by decide)
    (by decide) (by decide) (by decide)

/-- C5: for every sequence of valid config entries (valid key, UTF-8
value, `wire_size ≤ 255`) and every buffer with room for the encoding,
`ConfigurationOption::serialize` succeeds writing exactly the required
size, and iterating the written bytes yields exactly the original
entries, each as `Ok`, in order and with identical key and value. -/
theorem claim_C5_config_roundtrip (entries : List ConfigEntry)
    (buf : List Nat)
    (hval : ∀ e ∈ entries, validateKey e.key = .ok () ∧
      (∀ v, e.value = some v → utf8Valid v = true) ∧ e.wireSize ≤ 255)
    (hbuf : requiredSize entries ≤ buf.length) :
    ∃ written bufF, serialize entries buf = some (.ok (written, bufF)) ∧
      written = requiredSize entries ∧
      configCollect (bufF.take written) 0 (entries.length + 1) =
        entries.map Except.ok := by
  have hok := serializeGo_ok entries buf 0 (fun x hx => (hval x hx).2.2)
    (by omega)
  refine ⟨0 + requiredSize entries, _, hok, by omega, ?_⟩
  have htk : ((buf.take 0 ++ encodeEntries entries ++
      buf.drop (0 + requiredSize entries)).take (0 + requiredSize entries)) =
      encodeEntries entries := by
    have h0 : (0 : Nat) + requiredSize entries = requiredSize entries := by
      omega
    rw [h0, List.take_zero, List.nil_append,
      List.take_left' (encodeEntries_length entries)]
  rw [htk]
  exact configCollect_encode entries (encodeEntries entries) 0
    (entries.length + 1) (by rw [List.drop_zero])
    (fun x hx => ⟨(hval x hx).1, (hval x hx).2.1⟩) (by omega)

theorem claim_C5_config_roundtrip_witness :
    ∃ written bufF,
      serialize [({ key := [107], value := none } : ConfigEntry)]
        (List.replicate 3 0) = some (.ok (written, bufF)) ∧
      written = requiredSize
        [({ key := [107], value := none } : ConfigEntry)] ∧
      configCollect (bufF.take written) 0 2 =
        [({ key := [107], value := none } : ConfigEntry)].map Except.ok :=
  claim_C5_config_roundtrip _ _
    (by
      intro e he
      rw [List.mem_singleton] at he
      subst he
      refine ⟨by decide, ?_, by decide⟩
      intro v hv
      cases hv)
    (by decide)

/-- C7: `ConfigurationOption::serialize` never writes out of bounds (the
instrumented serializer always returns `some`), and it returns
`BufferTooSmall` exactly when some entry's `wire_size` exceeds 255 or the
total required size (a length byte per entry plus its `wire_size`, plus
the terminator byte) exceeds the buffer length. -/
theorem claim_C7_serialize_bounds (entries : List ConfigEntry)
    (buf : List Nat) :
    (serialize entries buf).isSome = true ∧
    (serialize entries buf = some (.error .bufferTooSmall) ↔
      (∃ e ∈ entries, 255 < e.wireSize) ∨
        buf.length < requiredSize entries) := by
  obtain ⟨hsome, hiff⟩ := serializeGo_spec entries buf 0
  refine ⟨hsome, ?_⟩
  simp only [serialize]
  rw [hiff, Nat.zero_add]

end SomeipSdWire
